import Mathlib

/-!
Shallow embedding of the two components of this repository:
`src/utils/DataCache.cpp` (a disk-backed object cache) and
`src/utils/TimerPool.cpp` (a recurring-timer scheduler queue).

Modelling conventions:
* C++ `unsigned int` values (`m_Size`, `m_MaxCacheSize`, `m_CurrentCacheSize`)
  are modelled as `Nat` reduced modulo `2 ^ 32` (`U32`) at every point where
  the C++ code stores into an `unsigned int`; `-=` on an `unsigned int` is
  the wrap-around `(a + U32 - d) % U32`.
* Wall-clock epoch times and ages (C++ `double` through the `Time` wrapper)
  are modelled as `ℚ`.
* Every fallible filesystem interaction is an input, collected in `Env`:
  what reading a path yields, whether writing / removing a path fails
  (an `ofstream` error resp. a `fs::remove` exception), whether the cache
  directory exists, whether `create_directories` throws, and the directory
  listing seen by `Initialize`.
* Operations also return the list of file operations they attempted
  (`FileOp`), so that on-disk effects can be stated.
* `std::map<std::string, CacheItem>` is modelled as an association list kept
  sorted (strictly ascending) by key, `CacheMap`.
-/

def U32 : Nat := 4294967296

/-- Modelled from the spec: `StringUtil::Replace(id, "/", "_")`
(`StringUtil.h` is not part of `src/`).  The spec says ids are normalized
"by replacing path separators with underscores"; since the pattern is the
single character `/`, replacing every occurrence is a character map. -/
def normalizeId (s : String) : String :=
  String.mk (s.data.map (fun c => if c = '/' then '_' else c))

structure CacheItem where
  m_Id : String
  m_Path : String
  m_Time : ℚ
  m_Size : Nat
  m_bLoaded : Bool
  m_Data : String
deriving DecidableEq

/-- Modelled from the spec: the default-constructed `CacheItem` inserted by
`std::map::operator[]` (`DataCache.h` is not part of `src/`); numeric and
boolean members default to zero / false, strings to empty. -/
def defItem : CacheItem := ⟨"", "", 0, 0, false, ""⟩

abbrev CacheMap := List (String × CacheItem)

/-- `std::map::find`. -/
def mapFind : CacheMap → String → Option CacheItem
  | [], _ => none
  | p :: t, k => if p.1 = k then some p.2 else mapFind t k

/-- `std::map` insert-or-assign at a key (the net effect of `operator[]`
followed by assigning every touched field), keeping the list sorted. -/
def mapSet : CacheMap → String → CacheItem → CacheMap
  | [], k, it => [(k, it)]
  | p :: t, k, it =>
    if k < p.1 then (k, it) :: p :: t
    else if k = p.1 then (k, it) :: t
    else p :: mapSet t k it

/-- `std::map::erase` of a key. -/
def mapErase : CacheMap → String → CacheMap
  | [], _ => []
  | p :: t, k => if p.1 = k then t else p :: mapErase t k

def sumSizes (m : CacheMap) : Nat := (m.map (fun p => p.2.m_Size)).sum

/-- A filesystem side effect attempted by a cache operation, with whether
it succeeded. -/
inductive FileOp where
  | write (path : String) (data : String) (ok : Bool)
  | remove (path : String) (ok : Bool)
deriving DecidableEq

/-- One regular file seen by `Initialize`'s directory scan: its filename
stem, full path, last-write time, size, and whether querying the
last-write time resp. the size throws (the per-file `try`/`catch`). -/
structure ScannedFile where
  stem : String
  fullPath : String
  mtime : ℚ
  fsize : Nat
  mtimeFails : Bool
  sizeFails : Bool

/-- The external world, as seen by one cache operation. -/
structure Env where
  now : ℚ
  readData : String → String
  writeFails : String → Bool
  removeFails : String → Bool
  dirIsDir : Bool
  createFails : Bool
  listing : List ScannedFile

structure DataCache where
  m_bInitialized : Bool
  m_CachePath : String
  m_MaxCacheSize : Nat
  m_MaxCacheAge : ℚ
  m_CurrentCacheSize : Nat
  m_Cache : CacheMap
deriving DecidableEq

/-- `DataCache::Find` (DataCache.cpp lines 94-128): normalize the id, look
it up; if present and not loaded, read the backing file, mark loaded, and
on a size mismatch adjust the running total by the delta and store the
read length into the `unsigned int` size field. -/
def Find (env : Env) (s : DataCache) (a_ID : String) : Option CacheItem × DataCache :=
  let id := normalizeId a_ID
  match mapFind s.m_Cache id with
  | none => (none, s)
  | some item =>
    if item.m_bLoaded then (some item, s)
    else
      let data := env.readData item.m_Path
      let L := data.length
      if L ≠ item.m_Size then
        let newTotal :=
          if item.m_Size < L then (s.m_CurrentCacheSize + (L - item.m_Size)) % U32
          else (s.m_CurrentCacheSize + U32 - (item.m_Size - L)) % U32
        let item' : CacheItem :=
          { item with m_Data := data, m_bLoaded := true, m_Size := L % U32 }
        (some item', { s with m_Cache := mapSet s.m_Cache id item',
                              m_CurrentCacheSize := newTotal })
      else
        let item' : CacheItem := { item with m_Data := data, m_bLoaded := true }
        (some item', { s with m_Cache := mapSet s.m_Cache id item' })

/-- The item after `Find`'s load path when the read length matches the
recorded size (lines 106-109): data read, marked loaded. -/
def loadedItem (it : CacheItem) (d : String) : CacheItem :=
  ⟨it.m_Id, it.m_Path, it.m_Time, it.m_Size, true, d⟩

/-- The item after `Find`'s load path when the read length differs from the
recorded size (lines 111-121): data read, marked loaded, size corrected to
the read length (stored as `unsigned int`). -/
def resizedItem (it : CacheItem) (d : String) : CacheItem :=
  ⟨it.m_Id, it.m_Path, it.m_Time, d.length % U32, true, d⟩

/-- `DataCache::Flush` (lines 165-189): normalize the id; absent key fails
with no change; if `fs::remove` throws, fail with no change to the index
or the running total; otherwise subtract the entry's size and erase it. -/
def Flush (env : Env) (s : DataCache) (a_ID : String) : Bool × DataCache × List FileOp :=
  let id := normalizeId a_ID
  match mapFind s.m_Cache id with
  | none => (false, s, [])
  | some item =>
    if env.removeFails item.m_Path then (false, s, [FileOp.remove item.m_Path false])
    else
      (true,
       { s with m_CurrentCacheSize := (s.m_CurrentCacheSize + U32 - item.m_Size) % U32,
                m_Cache := mapErase s.m_Cache id },
       [FileOp.remove item.m_Path true])

/-- The age test of `DataCache::FlushAged` (line 198-199):
`(now - m_Time) / 3600.0 > m_MaxCacheAge`. -/
def agedB (env : Env) (s : DataCache) (p : String × CacheItem) : Bool :=
  decide (s.m_MaxCacheAge < (env.now - p.2.m_Time) / 3600)

/-- One iteration of `FlushAged`'s second loop (lines 204-205):
`bFlushed |= Flush(*iFlush)`. -/
def flushStep (env : Env) (acc : Bool × DataCache × List FileOp) (id : String) :
    Bool × DataCache × List FileOp :=
  let r := Flush env acc.2.1 id
  (acc.1 || r.1, r.2.1, acc.2.2 ++ r.2.2)

/-- `DataCache::FlushAged` (lines 191-208): collect the ids of all aged
entries, then flush each, or-ing the results. -/
def FlushAged (env : Env) (s : DataCache) : Bool × DataCache × List FileOp :=
  let flushList := (s.m_Cache.filter (agedB env s)).map (fun p => p.2.m_Id)
  flushList.foldl (flushStep env) (false, s, [])

/-- The scan of `DataCache::FlushOldest` (lines 212-217): keep the first
entry (in map order) whose time is strictly below the best so far. -/
def oldestFrom (o : CacheItem) : CacheMap → CacheItem
  | [] => o
  | p :: t => if p.2.m_Time < o.m_Time then oldestFrom p.2 t else oldestFrom o t

def oldestItem : CacheMap → Option CacheItem
  | [] => none
  | p :: t => some (oldestFrom p.2 t)

/-- `DataCache::FlushOldest` (lines 210-223). -/
def FlushOldest (env : Env) (s : DataCache) : Bool × DataCache × List FileOp :=
  match oldestItem s.m_Cache with
  | none => (false, s, [])
  | some it => Flush env s it.m_Id

/-- `DataCache::FlushAll` (lines 225-241): best-effort removal of every
backing file, then unconditionally clear the index and zero the total. -/
def FlushAll (env : Env) (s : DataCache) : Bool × DataCache × List FileOp :=
  (true, { s with m_CurrentCacheSize := 0, m_Cache := [] },
   s.m_Cache.map (fun p => FileOp.remove p.2.m_Path (!env.removeFails p.2.m_Path)))

/-- `DataCache::Uninitialize` (lines 86-91). -/
def UninitializeFn (s : DataCache) : DataCache :=
  { s with m_Cache := [], m_CurrentCacheSize := 0, m_bInitialized := false }

/-- The eviction loop of `DataCache::Save` (lines 159-160):
`while (m_CurrentCacheSize > m_MaxCacheSize) FlushOldest();`.
A pass of `FlushOldest` that does not shrink the index leaves the state
unchanged, so (the environment being fixed for the call) the C++ loop then
spins forever; that divergence is modelled as `none`.  When every pass
shrinks the index, `m_Cache.length + 1` rounds of fuel are enough, so the
fuel never runs out on the path where the C++ loop terminates. -/
def evictLoopFuel (env : Env) : Nat → DataCache → Option (DataCache × List FileOp)
  | 0, _ => none
  | fuel + 1, s =>
    if s.m_CurrentCacheSize ≤ s.m_MaxCacheSize then some (s, [])
    else
      let r := FlushOldest env s
      if r.2.1.m_Cache.length < s.m_Cache.length then
        match evictLoopFuel env fuel r.2.1 with
        | none => none
        | some (s', eff) => some (s', r.2.2 ++ eff)
      else none

def evictLoop (env : Env) (s : DataCache) : Option (DataCache × List FileOp) :=
  evictLoopFuel env (s.m_Cache.length + 1) s

/-- The state after `Save`'s lines 146-152 and 158: the fully-loaded item
is stored under the (already normalized) key, its path is
`m_CachePath + id + ".bytes"` (plain concatenation, line 147), and the
item's size (the data length as an `unsigned int`) is added to the
running total. -/
def saveState (env : Env) (s1 : DataCache) (id a_Data : String) : DataCache :=
  { s1 with
    m_Cache := mapSet s1.m_Cache id
      ⟨id, s1.m_CachePath ++ id ++ ".bytes", env.now, a_Data.length % U32, true, a_Data⟩,
    m_CurrentCacheSize := (s1.m_CurrentCacheSize + a_Data.length % U32) % U32 }

/-- The unconditional tail of `DataCache::Save` (lines 146-162): build the
fully-loaded item, write the backing file (the stream's success is never
checked), add the size to the running total, and run the eviction loop. -/
def saveWrite (env : Env) (s1 : DataCache) (id a_Data : String) (eff1 : List FileOp) :
    Option (Bool × DataCache × List FileOp) :=
  let path := s1.m_CachePath ++ id ++ ".bytes"
  match evictLoop env (saveState env s1 id a_Data) with
  | none => none
  | some (s3, eff2) =>
    some (true, s3, eff1 ++ FileOp.write path a_Data (!env.writeFails path) :: eff2)

/-- `DataCache::Save` (lines 130-163): normalize the id; if an entry with
that key exists, flush it first and fail if that flush fails; otherwise
proceed with `saveWrite`. -/
def Save (env : Env) (s : DataCache) (a_ID a_Data : String) :
    Option (Bool × DataCache × List FileOp) :=
  let id := normalizeId a_ID
  match mapFind s.m_Cache id with
  | some _ =>
    let r := Flush env s id
    if r.1 then saveWrite env r.2.1 id a_Data r.2.2
    else some (false, r.2.1, r.2.2)
  | none => saveWrite env s id a_Data []

/-- One iteration of `Initialize`'s directory scan (lines 57-78):
`operator[]` on the stem, then assign id, path, time, size in that order,
each of the latter two queries possibly throwing (caught and logged), and
add the size to the running total only if nothing threw. -/
def scanFile (s : DataCache) (f : ScannedFile) : DataCache :=
  let old := (mapFind s.m_Cache f.stem).getD defItem
  if f.mtimeFails then
    let it : CacheItem := { old with m_Id := f.stem, m_Path := f.fullPath }
    { s with m_Cache := mapSet s.m_Cache f.stem it }
  else if f.sizeFails then
    let it : CacheItem := { old with m_Id := f.stem, m_Path := f.fullPath, m_Time := f.mtime }
    { s with m_Cache := mapSet s.m_Cache f.stem it }
  else
    let sz := f.fsize % U32
    let it : CacheItem :=
      { old with m_Id := f.stem, m_Path := f.fullPath, m_Time := f.mtime, m_Size := sz }
    { s with m_Cache := mapSet s.m_Cache f.stem it,
             m_CurrentCacheSize := (s.m_CurrentCacheSize + sz) % U32 }

/-- `DataCache::Initialize` (lines 33-84): set the initialized flag and the
configuration fields first; if the directory is missing and creating it
throws, return failure right there (prior index untouched); otherwise
clear the index, scan the directory, and run `FlushAged`. -/
def Initialize (env : Env) (s : DataCache) (a_CachePath : String) (maxCacheSize : Nat)
    (maxCacheAge : ℚ) : Bool × DataCache × List FileOp :=
  let s0 : DataCache :=
    { s with m_bInitialized := true, m_CachePath := a_CachePath,
             m_MaxCacheSize := maxCacheSize % U32, m_MaxCacheAge := maxCacheAge }
  if !env.dirIsDir && env.createFails then (false, s0, [])
  else
    let s1 : DataCache := { s0 with m_Cache := [], m_CurrentCacheSize := 0 }
    let s2 := env.listing.foldl scanFile s1
    let r := FlushAged env s2
    (true, r.2.1, r.2.2)

/-- The public cache operations, for stating state-invariant claims. -/
inductive Op where
  | doInit (path : String) (maxSize : Nat) (maxAge : ℚ)
  | doFind (id : String)
  | doSave (id : String) (data : String)
  | doFlush (id : String)
  | doFlushAged
  | doFlushOldest
  | doFlushAll
  | doUninit

def step (env : Env) (op : Op) (s : DataCache) : Option DataCache :=
  match op with
  | .doInit p msz mage => some (Initialize env s p msz mage).2.1
  | .doFind id => some (Find env s id).2
  | .doSave id d => (Save env s id d).map (fun r => r.2.1)
  | .doFlush id => some (Flush env s id).2.1
  | .doFlushAged => some (FlushAged env s).2.1
  | .doFlushOldest => some (FlushOldest env s).2.1
  | .doFlushAll => some (FlushAll env s).2.1
  | .doUninit => some (UninitializeFn s)

def runSteps : List (Env × Op) → DataCache → Option DataCache
  | [], s => some s
  | p :: rest, s =>
    match step p.1 p.2 s with
    | none => none
    | some s' => runSteps rest s'

/-- Representation invariant of the `std::map` model: keys strictly
ascending. -/
def keysSorted (m : CacheMap) : Prop := m.Pairwise (fun a b => a.1 < b.1)

/-- Well-formedness of a cache index: the list really represents a
`std::map` (keys strictly ascending), every entry's stored id is its key,
keys are already normalized (they come from filename stems or normalized
ids), and every stored size is an `unsigned int` value. -/
def mapWF (m : CacheMap) : Prop :=
  keysSorted m ∧ ∀ p ∈ m, p.2.m_Id = p.1 ∧ normalizeId p.1 = p.1 ∧ p.2.m_Size < U32

/-- Well-formedness of a reachable cache state. -/
def WF (s : DataCache) : Prop := mapWF s.m_Cache

/-- The size-accounting invariant, in `unsigned int` arithmetic: the
running total equals the sum of the entry sizes reduced modulo `2 ^ 32`. -/
def SizeInv (s : DataCache) : Prop := s.m_CurrentCacheSize = sumSizes s.m_Cache % U32

/-- A directory listing with pairwise-distinct, separator-free stems (what
a real directory scan produces, except that distinct files may share a
stem when their extensions differ). -/
def goodListing (env : Env) : Prop :=
  (env.listing.map (fun f => f.stem)).Nodup ∧ ∀ f ∈ env.listing, normalizeId f.stem = f.stem

def noRemoveFails (env : Env) : Prop := ∀ p, env.removeFails p = false

/-- "Key `k` still holds the saved bytes `d`": any entry found at `k` is
loaded with data `d` (vacuously true once the key is gone). -/
def holdsData (s : DataCache) (k d : String) : Prop :=
  ∀ it, mapFind s.m_Cache k = some it → it.m_bLoaded = true ∧ it.m_Data = d

/-- The operations that begin by flushing / discarding the given key's
entry: a same-key `Save` (which flushes the old entry first) and
`Initialize` (which clears the whole index before rescanning). -/
def opFlushesKey (k : String) : Op → Prop
  | .doSave id _ => normalizeId id = k
  | .doInit _ _ _ => True
  | _ => False

/-! ## TimerPool -/

/-- A timer as seen by the scheduler.  `alive` models whether the queue's
non-owning `weak_ptr` still resolves (`lock()` succeeds). -/
structure ITimer where
  m_NextSignal : ℚ
  m_Interval : ℚ
  m_bRecurring : Bool
  m_bInvokeOnMain : Bool
  alive : Bool
deriving DecidableEq

/-- `MIN_INTERVAL_TIME` (TimerPool.cpp line 22). -/
def MIN_INTERVAL_TIME : ℚ := 1 / 100

/-- The insertion scan of `TimerPool::InsertTimer` (lines 79-98): walk the
queue; skip entries whose reference no longer resolves; insert before the
first live entry with a strictly greater next-signal time; otherwise
append.  The second component is `bNewFirstTimer`: it stays `true` only
while no live entry has been passed over. -/
def insertLoop (t : ITimer) : List ITimer → List ITimer × Bool
  | [] => ([t], true)
  | x :: xs =>
    if x.alive = false then
      let r := insertLoop t xs
      (x :: r.1, r.2)
    else if t.m_NextSignal < x.m_NextSignal then
      (t :: x :: xs, true)
    else
      let r := insertLoop t xs
      (x :: r.1, false)

structure InsertResult where
  queue : List ITimer
  wakes : Bool
  locked : Bool
deriving DecidableEq

/-- `TimerPool::InsertTimer` (lines 74-105): the queue update plus whether
the call takes the queue lock (`a_bNewTimer`) and whether it signals the
wake condition (`bNewFirstTimer && a_bNewTimer`, lines 101-102). -/
def InsertTimer (q : List ITimer) (t : ITimer) (a_bNewTimer : Bool) : InsertResult :=
  let r := insertLoop t q
  ⟨r.1, r.2 && a_bNewTimer, a_bNewTimer⟩

structure Invocation where
  timer : ITimer
  onMain : Bool
deriving DecidableEq

/-- The drain loop of `TimerPool::TimerThread` (lines 148-179): pop expired
references; stop at the first live head that is not yet due; otherwise pop
and dispatch the head, and if it is recurring, advance its next-signal
time by its interval raised to `MIN_INTERVAL_TIME` and reinsert it through
`InsertTimer` with `a_bNewTimer = false`.  Returns the dispatch trace, the
final queue, and whether any wake signal was emitted.  The C++ loop is
`while (true)`; `fuel` only truncates the unfolding. -/
def drainLoop (now : ℚ) : Nat → List ITimer → List Invocation × List ITimer × Bool
  | 0, q => ([], q, false)
  | _ + 1, [] => ([], [], false)
  | fuel + 1, x :: xs =>
    if x.alive = false then drainLoop now fuel xs
    else if now < x.m_NextSignal then ([], x :: xs, false)
    else
      let inv : Invocation := ⟨x, x.m_bInvokeOnMain⟩
      if x.m_bRecurring then
        let fInterval :=
          if x.m_Interval < MIN_INTERVAL_TIME then MIN_INTERVAL_TIME else x.m_Interval
        let x' : ITimer := { x with m_NextSignal := x.m_NextSignal + fInterval }
        let r := InsertTimer xs x' false
        let d := drainLoop now fuel r.queue
        (inv :: d.1, d.2.1, r.wakes || d.2.2)
      else
        let d := drainLoop now fuel xs
        (inv :: d.1, d.2.1, d.2.2)

def liveTimers (q : List ITimer) : List ITimer := q.filter (fun x => x.alive)

def sortedByNext (l : List ITimer) : Prop :=
  l.Pairwise (fun a b => a.m_NextSignal ≤ b.m_NextSignal)


/-! ## Helper lemmas: id normalization -/

theorem normalizeId_idem (s : String) : normalizeId (normalizeId s) = normalizeId s := by
  unfold normalizeId
  simp only [List.map_map]
  congr 1
  refine List.map_congr_left (fun c _ => ?_)
  by_cases h : c = '/'
  · subst h; rfl
  · simp [Function.comp, h]

theorem normalizeId_no_slash (s : String) : ∀ c ∈ (normalizeId s).data, c ≠ '/' := by
  intro c hc
  have hc' : c ∈ s.data.map (fun c => if c = '/' then '_' else c) := hc
  rcases List.mem_map.1 hc' with ⟨a, _, rfl⟩
  by_cases h : a = '/'
  · rw [if_pos h]; decide
  · rw [if_neg h]; exact h

/-! ## Helper lemmas: the association-list map -/

theorem mapFind_mapSet_self (m : CacheMap) (k : String) (it : CacheItem) :
    mapFind (mapSet m k it) k = some it := by
  induction m with
  | nil => simp [mapSet, mapFind]
  | cons p t ih =>
    by_cases h1 : k < p.1
    · simp [mapSet, h1, mapFind]
    · by_cases h2 : k = p.1
      · simp [mapSet, h1, h2, mapFind]
      · have hne : ¬ p.1 = k := fun hh => h2 hh.symm
        simp [mapSet, h1, h2, mapFind, hne, ih]

theorem mapFind_mapSet_ne (m : CacheMap) (k k' : String) (it : CacheItem) (h : k' ≠ k) :
    mapFind (mapSet m k it) k' = mapFind m k' := by
  have hkk : ¬ (k = k') := fun hh => h hh.symm
  induction m with
  | nil => simp [mapSet, mapFind, hkk]
  | cons p t ih =>
    by_cases h1 : k < p.1
    · simp [mapSet, h1, mapFind, hkk]
    · by_cases h2 : k = p.1
      · have hp : ¬ (p.1 = k') := by rw [← h2]; exact hkk
        simp [mapSet, h1, h2, mapFind, hkk, hp]
      · simp [mapSet, h1, h2, mapFind, ih]

theorem mapFind_mapErase_ne (m : CacheMap) (k k' : String) (h : k' ≠ k) :
    mapFind (mapErase m k) k' = mapFind m k' := by
  induction m with
  | nil => simp [mapErase]
  | cons p t ih =>
    by_cases h1 : p.1 = k
    · have hp : ¬ (k = k') := fun hh => h hh.symm
      simp [mapErase, h1, mapFind, hp]
    · simp [mapErase, h1, mapFind, ih]

theorem mapErase_of_find_none (m : CacheMap) (k : String) (h : mapFind m k = none) :
    mapErase m k = m := by
  induction m with
  | nil => simp [mapErase]
  | cons p t ih =>
    by_cases h1 : p.1 = k
    · simp [mapFind, h1] at h
    · simp [mapFind, h1] at h
      simp [mapErase, h1, ih h]

theorem mapFind_mem (m : CacheMap) (k : String) (it : CacheItem)
    (h : mapFind m k = some it) : (k, it) ∈ m := by
  induction m with
  | nil => simp [mapFind] at h
  | cons p t ih =>
    rw [mapFind] at h
    by_cases h1 : p.1 = k
    · rw [if_pos h1] at h
      injection h with h2
      have hp : p = (k, it) := Prod.ext h1 h2
      rw [hp]
      exact List.mem_cons_self _ _
    · rw [if_neg h1] at h
      exact List.mem_cons_of_mem _ (ih h)

theorem mapErase_sublist (m : CacheMap) (k : String) : (mapErase m k).Sublist m := by
  induction m with
  | nil => simp [mapErase]
  | cons p t ih =>
    by_cases h1 : p.1 = k
    · simp only [mapErase, if_pos h1]
      exact List.sublist_cons_self p t
    · simp only [mapErase, if_neg h1]
      exact List.cons_sublist_cons.2 ih

theorem length_mapErase (m : CacheMap) (k : String) (it : CacheItem)
    (h : mapFind m k = some it) : (mapErase m k).length + 1 = m.length := by
  induction m with
  | nil => simp [mapFind] at h
  | cons p t ih =>
    by_cases h1 : p.1 = k
    · simp [mapErase, h1]
    · simp [mapFind, h1] at h
      simp only [mapErase, if_neg h1, List.length_cons]
      rw [← ih h]

theorem sumSizes_mapErase (m : CacheMap) (k : String) (it : CacheItem)
    (h : mapFind m k = some it) :
    sumSizes (mapErase m k) + it.m_Size = sumSizes m := by
  induction m with
  | nil => simp [mapFind] at h
  | cons p t ih =>
    by_cases h1 : p.1 = k
    · simp [mapFind, h1] at h
      simp [mapErase, h1, sumSizes, h]
      omega
    · simp [mapFind, h1] at h
      simp only [mapErase, if_neg h1]
      simp [sumSizes] at ih ⊢
      have := ih h
      omega

theorem size_le_sumSizes (m : CacheMap) (k : String) (it : CacheItem)
    (h : mapFind m k = some it) : it.m_Size ≤ sumSizes m := by
  induction m with
  | nil => simp [mapFind] at h
  | cons p t ih =>
    by_cases h1 : p.1 = k
    · simp [mapFind, h1] at h
      simp [sumSizes, h]
    · simp [mapFind, h1] at h
      have := ih h
      simp [sumSizes] at this ⊢
      omega

theorem sumSizes_mapSet_none (m : CacheMap) (k : String) (it : CacheItem)
    (h : mapFind m k = none) :
    sumSizes (mapSet m k it) = sumSizes m + it.m_Size := by
  induction m with
  | nil => simp [mapSet, sumSizes]
  | cons p t ih =>
    by_cases h1 : p.1 = k
    · simp [mapFind, h1] at h
    · simp [mapFind, h1] at h
      by_cases h2 : k < p.1
      · simp [mapSet, h2, sumSizes]
        omega
      · have h3 : ¬ k = p.1 := fun hh => h1 hh.symm
        simp only [mapSet, if_neg h2, if_neg h3]
        simp [sumSizes] at ih ⊢
        have := ih h
        omega

theorem mem_mapSet (m : CacheMap) (k : String) (it : CacheItem) (p : String × CacheItem)
    (h : p ∈ mapSet m k it) : p ∈ m ∨ p = (k, it) := by
  induction m with
  | nil =>
    simp [mapSet] at h
    right; exact h
  | cons q t ih =>
    by_cases h1 : k < q.1
    · simp only [mapSet, if_pos h1] at h
      rcases List.mem_cons.1 h with h | h
      · right; exact h
      · left; exact h
    · by_cases h2 : k = q.1
      · simp only [mapSet, if_neg h1, if_pos h2] at h
        rcases List.mem_cons.1 h with h | h
        · right; exact h
        · left; exact List.mem_cons_of_mem _ h
      · simp only [mapSet, if_neg h1, if_neg h2] at h
        rcases List.mem_cons.1 h with h | h
        · left; rw [h]; exact List.mem_cons_self _ _
        · rcases ih h with h3 | h3
          · left; exact List.mem_cons_of_mem _ h3
          · right; exact h3

/-! ## Helper lemmas: sortedness -/

theorem keysSorted_mapSet (m : CacheMap) (k : String) (it : CacheItem)
    (h : keysSorted m) : keysSorted (mapSet m k it) := by
  induction m with
  | nil =>
    unfold keysSorted mapSet
    simp
  | cons p t ih =>
    unfold keysSorted at h ⊢
    rw [List.pairwise_cons] at h
    obtain ⟨h1, h2⟩ := h
    by_cases hk1 : k < p.1
    · simp only [mapSet, if_pos hk1]
      rw [List.pairwise_cons]
      constructor
      · intro q hq
        rcases List.mem_cons.1 hq with hq | hq
        · rw [hq]; exact hk1
        · exact lt_trans hk1 (h1 q hq)
      · rw [List.pairwise_cons]
        exact ⟨h1, h2⟩
    · by_cases hk2 : k = p.1
      · simp only [mapSet, if_neg hk1, if_pos hk2]
        rw [List.pairwise_cons]
        refine ⟨fun q hq => ?_, h2⟩
        rw [hk2]
        exact h1 q hq
      · have hk3 : p.1 < k := by
          rcases lt_trichotomy k p.1 with h' | h' | h'
          · exact absurd h' hk1
          · exact absurd h' hk2
          · exact h'
        simp only [mapSet, if_neg hk1, if_neg hk2]
        rw [List.pairwise_cons]
        refine ⟨fun q hq => ?_, ih h2⟩
        rcases mem_mapSet t k it q hq with hq' | hq'
        · exact h1 q hq'
        · rw [hq']; exact hk3

theorem keysSorted_mapErase (m : CacheMap) (k : String) (h : keysSorted m) :
    keysSorted (mapErase m k) :=
  List.Pairwise.sublist (mapErase_sublist m k) h

theorem mapFind_eq_none_of_keys_ne (m : CacheMap) (k : String)
    (h : ∀ q ∈ m, ¬ q.1 = k) : mapFind m k = none := by
  induction m with
  | nil => rfl
  | cons p t ih =>
    rw [mapFind, if_neg (h p (List.mem_cons_self p t))]
    exact ih (fun q hq => h q (List.mem_cons_of_mem _ hq))

theorem mapFind_mapErase_self (m : CacheMap) (k : String) (h : keysSorted m) :
    mapFind (mapErase m k) k = none := by
  induction m with
  | nil => rfl
  | cons p t ih =>
    unfold keysSorted at h
    rw [List.pairwise_cons] at h
    obtain ⟨h1, h2⟩ := h
    by_cases hk : p.1 = k
    · rw [mapErase, if_pos hk]
      refine mapFind_eq_none_of_keys_ne t k (fun q hq heq => ?_)
      have hlt := h1 q hq
      rw [hk, heq] at hlt
      exact lt_irrefl _ hlt
    · rw [mapErase, if_neg hk, mapFind, if_neg hk]
      exact ih h2

theorem mapFind_of_mem (m : CacheMap) (k : String) (it : CacheItem)
    (hs : keysSorted m) (h : (k, it) ∈ m) : mapFind m k = some it := by
  induction m with
  | nil => simp at h
  | cons p t ih =>
    unfold keysSorted at hs
    rw [List.pairwise_cons] at hs
    obtain ⟨h1, h2⟩ := hs
    rcases List.mem_cons.1 h with h | h
    · rw [← h]
      simp [mapFind]
    · have hk : ¬ p.1 = k := by
        intro he
        have hlt := h1 _ h
        rw [he] at hlt
        exact lt_irrefl _ hlt
      rw [mapFind, if_neg hk]
      exact ih h2 h

theorem sumSizes_mapSet_some (m : CacheMap) (k : String) (it old : CacheItem)
    (hs : keysSorted m) (h : mapFind m k = some old) :
    sumSizes (mapSet m k it) + old.m_Size = sumSizes m + it.m_Size := by
  induction m with
  | nil => simp [mapFind] at h
  | cons p t ih =>
    unfold keysSorted at hs
    rw [List.pairwise_cons] at hs
    obtain ⟨h1, h2⟩ := hs
    by_cases hk : p.1 = k
    · have hnlt : ¬ k < p.1 := by rw [hk]; exact lt_irrefl k
      simp only [mapSet, if_neg hnlt, if_pos hk.symm]
      simp [mapFind, hk] at h
      simp [sumSizes, h]
      omega
    · simp [mapFind, hk] at h
      by_cases hlt : k < p.1
      · exfalso
        have hmem := mapFind_mem t k old h
        exact lt_asymm hlt (h1 _ hmem)
      · have hne : ¬ k = p.1 := fun hh => hk hh.symm
        simp only [mapSet, if_neg hlt, if_neg hne]
        simp [sumSizes] at ih ⊢
        have := ih h2 h
        omega

/-! ## Helper lemmas: mapWF -/

theorem mapWF_mapErase (m : CacheMap) (k : String) (h : mapWF m) :
    mapWF (mapErase m k) :=
  ⟨keysSorted_mapErase m k h.1, fun p hp => h.2 p ((mapErase_sublist m k).subset hp)⟩

theorem mapWF_mapSet (m : CacheMap) (k : String) (it : CacheItem) (h : mapWF m)
    (hid : it.m_Id = k) (hnk : normalizeId k = k) (hsz : it.m_Size < U32) :
    mapWF (mapSet m k it) := by
  refine ⟨keysSorted_mapSet m k it h.1, fun p hp => ?_⟩
  rcases mem_mapSet m k it p hp with hp' | hp'
  · exact h.2 p hp'
  · rw [hp']
    exact ⟨hid, hnk, hsz⟩

/-! ## Branch characterizations of Flush -/

theorem Flush_none (env : Env) (s : DataCache) (a_ID : String)
    (h : mapFind s.m_Cache (normalizeId a_ID) = none) :
    Flush env s a_ID = (false, s, []) := by
  unfold Flush
  simp only [h]

theorem Flush_fail (env : Env) (s : DataCache) (a_ID : String) (item : CacheItem)
    (h : mapFind s.m_Cache (normalizeId a_ID) = some item)
    (hrf : env.removeFails item.m_Path = true) :
    Flush env s a_ID = (false, s, [FileOp.remove item.m_Path false]) := by
  unfold Flush
  simp only [h, hrf, if_true]

theorem Flush_ok (env : Env) (s : DataCache) (a_ID : String) (item : CacheItem)
    (h : mapFind s.m_Cache (normalizeId a_ID) = some item)
    (hrf : env.removeFails item.m_Path = false) :
    Flush env s a_ID =
      (true,
       { s with m_CurrentCacheSize := (s.m_CurrentCacheSize + U32 - item.m_Size) % U32,
                m_Cache := mapErase s.m_Cache (normalizeId a_ID) },
       [FileOp.remove item.m_Path true]) := by
  unfold Flush
  simp only [h, hrf]
  simp

/-! ## Preservation of WF and SizeInv -/

theorem Flush_preserves (env : Env) (s : DataCache) (a_ID : String)
    (hwf : WF s) (hinv : SizeInv s) :
    WF (Flush env s a_ID).2.1 ∧ SizeInv (Flush env s a_ID).2.1 := by
  cases hfind : mapFind s.m_Cache (normalizeId a_ID) with
  | none =>
    rw [Flush_none env s a_ID hfind]
    exact ⟨hwf, hinv⟩
  | some item =>
    cases hrf : env.removeFails item.m_Path with
    | true =>
      rw [Flush_fail env s a_ID item hfind hrf]
      exact ⟨hwf, hinv⟩
    | false =>
      rw [Flush_ok env s a_ID item hfind hrf]
      have hmem := mapFind_mem _ _ _ hfind
      have hprops := hwf.2 _ hmem
      refine ⟨mapWF_mapErase _ _ hwf, ?_⟩
      show (s.m_CurrentCacheSize + U32 - item.m_Size) % U32
        = sumSizes (mapErase s.m_Cache (normalizeId a_ID)) % U32
      have herase := sumSizes_mapErase _ _ _ hfind
      have hle := size_le_sumSizes _ _ _ hfind
      have hlt : item.m_Size < U32 := hprops.2.2
      rw [SizeInv] at hinv
      rw [hinv]
      simp only [U32] at *
      omega

theorem FlushOldest_preserves (env : Env) (s : DataCache)
    (hwf : WF s) (hinv : SizeInv s) :
    WF (FlushOldest env s).2.1 ∧ SizeInv (FlushOldest env s).2.1 := by
  unfold FlushOldest
  cases h : oldestItem s.m_Cache with
  | none => exact ⟨hwf, hinv⟩
  | some it => exact Flush_preserves env s it.m_Id hwf hinv

theorem flushFold_preserves (env : Env) (ids : List String) :
    ∀ acc : Bool × DataCache × List FileOp, WF acc.2.1 → SizeInv acc.2.1 →
      WF (ids.foldl (flushStep env) acc).2.1 ∧
      SizeInv (ids.foldl (flushStep env) acc).2.1 := by
  induction ids with
  | nil => intro acc h1 h2; exact ⟨h1, h2⟩
  | cons id rest ih =>
    intro acc h1 h2
    rw [List.foldl_cons]
    exact ih _ (Flush_preserves env acc.2.1 id h1 h2).1
      (Flush_preserves env acc.2.1 id h1 h2).2

theorem FlushAged_preserves (env : Env) (s : DataCache)
    (hwf : WF s) (hinv : SizeInv s) :
    WF (FlushAged env s).2.1 ∧ SizeInv (FlushAged env s).2.1 := by
  unfold FlushAged
  exact flushFold_preserves env _ (false, s, []) hwf hinv

theorem evictLoopFuel_preserves (env : Env) (fuel : Nat) :
    ∀ s s' eff, WF s → SizeInv s → evictLoopFuel env fuel s = some (s', eff) →
      WF s' ∧ SizeInv s' := by
  induction fuel with
  | zero =>
    intro s s' eff _ _ h
    simp [evictLoopFuel] at h
  | succ n ih =>
    intro s s' eff hwf hinv h
    rw [evictLoopFuel] at h
    by_cases hle : s.m_CurrentCacheSize ≤ s.m_MaxCacheSize
    · rw [if_pos hle] at h
      injection h with h
      injection h with h1 h2
      rw [← h1]
      exact ⟨hwf, hinv⟩
    · rw [if_neg hle] at h
      by_cases hlen : (FlushOldest env s).2.1.m_Cache.length < s.m_Cache.length
      · rw [if_pos hlen] at h
        cases hrec : evictLoopFuel env n (FlushOldest env s).2.1 with
        | none => rw [hrec] at h; exact absurd h (by simp)
        | some r =>
          rw [hrec] at h
          obtain ⟨s3, eff3⟩ := r
          simp only [] at h
          injection h with h
          injection h with h1 h2
          rw [← h1]
          have hp := FlushOldest_preserves env s hwf hinv
          exact (ih _ _ _ hp.1 hp.2 hrec)
      · rw [if_neg hlen] at h
        exact absurd h (by simp)

theorem evictLoopFuel_le (env : Env) (fuel : Nat) :
    ∀ s s' eff, evictLoopFuel env fuel s = some (s', eff) →
      s'.m_CurrentCacheSize ≤ s'.m_MaxCacheSize := by
  induction fuel with
  | zero =>
    intro s s' eff h
    simp [evictLoopFuel] at h
  | succ n ih =>
    intro s s' eff h
    rw [evictLoopFuel] at h
    by_cases hle : s.m_CurrentCacheSize ≤ s.m_MaxCacheSize
    · rw [if_pos hle] at h
      injection h with h
      injection h with h1 h2
      rw [← h1]
      exact hle
    · rw [if_neg hle] at h
      by_cases hlen : (FlushOldest env s).2.1.m_Cache.length < s.m_Cache.length
      · rw [if_pos hlen] at h
        cases hrec : evictLoopFuel env n (FlushOldest env s).2.1 with
        | none => rw [hrec] at h; exact absurd h (by simp)
        | some r =>
          rw [hrec] at h
          obtain ⟨s3, eff3⟩ := r
          simp only [] at h
          injection h with h
          injection h with h1 h2
          rw [← h1]
          exact ih _ _ _ hrec
      · rw [if_neg hlen] at h
        exact absurd h (by simp)

/-! ## FlushOldest finds and removes an entry -/

theorem oldestFrom_mem (m : CacheMap) : ∀ o : CacheItem,
    oldestFrom o m = o ∨ ∃ k, (k, oldestFrom o m) ∈ m := by
  induction m with
  | nil => intro o; left; rfl
  | cons p t ih =>
    intro o
    rw [oldestFrom]
    by_cases h : p.2.m_Time < o.m_Time
    · rw [if_pos h]
      rcases ih p.2 with h' | h'
      · right
        exact ⟨p.1, by rw [h']; exact List.mem_cons_self _ _⟩
      · rcases h' with ⟨k, hk⟩
        right
        exact ⟨k, List.mem_cons_of_mem _ hk⟩
    · rw [if_neg h]
      rcases ih o with h' | h'
      · left; exact h'
      · rcases h' with ⟨k, hk⟩
        right
        exact ⟨k, List.mem_cons_of_mem _ hk⟩

theorem oldestItem_mem (m : CacheMap) (it : CacheItem) (h : oldestItem m = some it) :
    ∃ k, (k, it) ∈ m := by
  cases m with
  | nil => simp [oldestItem] at h
  | cons p t =>
    rw [oldestItem] at h
    injection h with h
    rcases oldestFrom_mem t p.2 with h' | h'
    · exact ⟨p.1, by rw [← h, h']; exact List.mem_cons_self _ _⟩
    · rcases h' with ⟨k, hk⟩
      exact ⟨k, by rw [← h]; exact List.mem_cons_of_mem _ hk⟩

theorem FlushOldest_shrinks (env : Env) (s : DataCache) (hwf : WF s)
    (hnr : noRemoveFails env) (hne : s.m_Cache ≠ []) :
    (FlushOldest env s).2.1.m_Cache.length < s.m_Cache.length := by
  cases hold : oldestItem s.m_Cache with
  | none =>
    cases hm : s.m_Cache with
    | nil => exact absurd hm hne
    | cons p t => rw [hm, oldestItem] at hold; exact absurd hold (by simp)
  | some it =>
    have hFO : FlushOldest env s = Flush env s it.m_Id := by
      unfold FlushOldest
      rw [hold]
    rcases oldestItem_mem _ _ hold with ⟨k, hk⟩
    have hprops := hwf.2 _ hk
    have hfind : mapFind s.m_Cache (normalizeId it.m_Id) = some it := by
      rw [hprops.1, hprops.2.1]
      exact mapFind_of_mem _ _ _ hwf.1 hk
    rw [hFO, Flush_ok env s it.m_Id it hfind (hnr it.m_Path)]
    show (mapErase s.m_Cache (normalizeId it.m_Id)).length < s.m_Cache.length
    have := length_mapErase _ _ _ hfind
    omega

theorem evictLoopFuel_progress (env : Env) (hnr : noRemoveFails env) (fuel : Nat) :
    ∀ s, WF s → SizeInv s → s.m_Cache.length < fuel →
      evictLoopFuel env fuel s ≠ none := by
  induction fuel with
  | zero =>
    intro s _ _ hlen
    omega
  | succ n ih =>
    intro s hwf hinv hlen
    rw [evictLoopFuel]
    by_cases hle : s.m_CurrentCacheSize ≤ s.m_MaxCacheSize
    · rw [if_pos hle]; simp
    · rw [if_neg hle]
      have hne : s.m_Cache ≠ [] := by
        intro hm
        rw [SizeInv, hm] at hinv
        simp [sumSizes] at hinv
        omega
      have hshrink := FlushOldest_shrinks env s hwf hnr hne
      rw [if_pos hshrink]
      have hp := FlushOldest_preserves env s hwf hinv
      have := ih (FlushOldest env s).2.1 hp.1 hp.2 (by omega)
      cases hrec : evictLoopFuel env n (FlushOldest env s).2.1 with
      | none => exact absurd hrec this
      | some r =>
        obtain ⟨s3, eff3⟩ := r
        simp

/-! ## Branch characterizations and preservation for Save -/

theorem saveWrite_none (env : Env) (s1 : DataCache) (id a_Data : String)
    (eff1 : List FileOp) (h : evictLoop env (saveState env s1 id a_Data) = none) :
    saveWrite env s1 id a_Data eff1 = none := by
  unfold saveWrite
  simp only [h]

theorem saveWrite_some (env : Env) (s1 : DataCache) (id a_Data : String)
    (eff1 : List FileOp) (s3 : DataCache) (eff2 : List FileOp)
    (h : evictLoop env (saveState env s1 id a_Data) = some (s3, eff2)) :
    saveWrite env s1 id a_Data eff1 =
      some (true, s3, eff1 ++ FileOp.write (s1.m_CachePath ++ id ++ ".bytes") a_Data
          (!env.writeFails (s1.m_CachePath ++ id ++ ".bytes")) :: eff2) := by
  unfold saveWrite
  simp only [h]

theorem saveState_preserves (env : Env) (s1 : DataCache) (id a_Data : String)
    (hwf : WF s1) (hinv : SizeInv s1) (hid : normalizeId id = id)
    (hnone : mapFind s1.m_Cache id = none) :
    WF (saveState env s1 id a_Data) ∧ SizeInv (saveState env s1 id a_Data) := by
  constructor
  · exact mapWF_mapSet _ _ _ hwf rfl hid (Nat.mod_lt _ (by simp [U32]))
  · show (s1.m_CurrentCacheSize + a_Data.length % U32) % U32
      = sumSizes (mapSet s1.m_Cache id
        ⟨id, s1.m_CachePath ++ id ++ ".bytes", env.now, a_Data.length % U32, true, a_Data⟩) % U32
    have hsum := sumSizes_mapSet_none s1.m_Cache id
      ⟨id, s1.m_CachePath ++ id ++ ".bytes", env.now, a_Data.length % U32, true, a_Data⟩ hnone
    rw [SizeInv] at hinv
    rw [hsum, hinv]
    simp only [U32] at *
    omega

theorem saveWrite_preserves (env : Env) (s1 : DataCache) (id a_Data : String)
    (eff1 : List FileOp) (b : Bool) (s' : DataCache) (eff : List FileOp)
    (hwf : WF s1) (hinv : SizeInv s1) (hid : normalizeId id = id)
    (hnone : mapFind s1.m_Cache id = none)
    (h : saveWrite env s1 id a_Data eff1 = some (b, s', eff)) :
    WF s' ∧ SizeInv s' := by
  cases hev : evictLoop env (saveState env s1 id a_Data) with
  | none =>
    rw [saveWrite_none _ _ _ _ _ hev] at h
    exact absurd h (by simp)
  | some r =>
    obtain ⟨s3, eff2⟩ := r
    rw [saveWrite_some _ _ _ _ _ _ _ hev] at h
    have hss := saveState_preserves env s1 id a_Data hwf hinv hid hnone
    unfold evictLoop at hev
    have hp := evictLoopFuel_preserves env _ _ _ _ hss.1 hss.2 hev
    injection h with h
    injection h with h1 h2
    injection h2 with h2 h3
    rw [← h2]
    exact hp

theorem Save_of_absent (env : Env) (s : DataCache) (a_ID a_Data : String)
    (h : mapFind s.m_Cache (normalizeId a_ID) = none) :
    Save env s a_ID a_Data = saveWrite env s (normalizeId a_ID) a_Data [] := by
  unfold Save
  simp only [h]

theorem Save_of_flushFail (env : Env) (s : DataCache) (a_ID a_Data : String)
    (it : CacheItem) (h : mapFind s.m_Cache (normalizeId a_ID) = some it)
    (hrf : env.removeFails it.m_Path = true) :
    Save env s a_ID a_Data = some (false, s, [FileOp.remove it.m_Path false]) := by
  unfold Save
  simp only [h]
  have hF := Flush_fail env s (normalizeId a_ID) it (by rw [normalizeId_idem]; exact h) hrf
  rw [hF]
  simp

theorem Save_of_flushOk (env : Env) (s : DataCache) (a_ID a_Data : String)
    (it : CacheItem) (h : mapFind s.m_Cache (normalizeId a_ID) = some it)
    (hrf : env.removeFails it.m_Path = false) :
    Save env s a_ID a_Data =
      saveWrite env
        { s with m_CurrentCacheSize := (s.m_CurrentCacheSize + U32 - it.m_Size) % U32,
                 m_Cache := mapErase s.m_Cache (normalizeId a_ID) }
        (normalizeId a_ID) a_Data [FileOp.remove it.m_Path true] := by
  unfold Save
  simp only [h]
  have hF := Flush_ok env s (normalizeId a_ID) it (by rw [normalizeId_idem]; exact h) hrf
  rw [normalizeId_idem] at hF
  rw [hF]
  simp

theorem Save_preserves (env : Env) (s : DataCache) (a_ID a_Data : String)
    (b : Bool) (s' : DataCache) (eff : List FileOp)
    (hwf : WF s) (hinv : SizeInv s)
    (h : Save env s a_ID a_Data = some (b, s', eff)) : WF s' ∧ SizeInv s' := by
  cases hfind : mapFind s.m_Cache (normalizeId a_ID) with
  | none =>
    rw [Save_of_absent env s a_ID a_Data hfind] at h
    exact saveWrite_preserves env s (normalizeId a_ID) a_Data [] b s' eff
      hwf hinv (normalizeId_idem a_ID) hfind h
  | some it =>
    cases hrf : env.removeFails it.m_Path with
    | true =>
      rw [Save_of_flushFail env s a_ID a_Data it hfind hrf] at h
      injection h with h
      injection h with h1 h2
      injection h2 with h2 h3
      rw [← h2]
      exact ⟨hwf, hinv⟩
    | false =>
      rw [Save_of_flushOk env s a_ID a_Data it hfind hrf] at h
      have hp := Flush_preserves env s a_ID hwf hinv
      rw [Flush_ok env s a_ID it hfind hrf] at hp
      exact saveWrite_preserves env _ (normalizeId a_ID) a_Data _ b s' eff
        hp.1 hp.2 (normalizeId_idem a_ID)
        (mapFind_mapErase_self s.m_Cache (normalizeId a_ID) hwf.1) h

/-! ## Branch characterizations and preservation for Find -/

theorem loadedItem_size (it : CacheItem) (d : String) :
    (loadedItem it d).m_Size = it.m_Size := rfl

theorem resizedItem_size (it : CacheItem) (d : String) :
    (resizedItem it d).m_Size = d.length % U32 := rfl

theorem Find_absent (env : Env) (s : DataCache) (a_ID : String)
    (h : mapFind s.m_Cache (normalizeId a_ID) = none) :
    Find env s a_ID = (none, s) := by
  unfold Find
  simp only [h]

theorem Find_loaded (env : Env) (s : DataCache) (a_ID : String) (it : CacheItem)
    (h : mapFind s.m_Cache (normalizeId a_ID) = some it) (hl : it.m_bLoaded = true) :
    Find env s a_ID = (some it, s) := by
  unfold Find
  simp only [h, hl]
  simp

theorem Find_load_eq (env : Env) (s : DataCache) (a_ID : String) (it : CacheItem)
    (h : mapFind s.m_Cache (normalizeId a_ID) = some it) (hl : it.m_bLoaded = false)
    (hlen : (env.readData it.m_Path).length = it.m_Size) :
    Find env s a_ID =
      (some (loadedItem it (env.readData it.m_Path)),
       { s with m_Cache := mapSet s.m_Cache (normalizeId a_ID)
                  (loadedItem it (env.readData it.m_Path)) }) := by
  unfold Find
  simp only [h, hl]
  simp [hlen, loadedItem]

theorem Find_load_mismatch (env : Env) (s : DataCache) (a_ID : String) (it : CacheItem)
    (h : mapFind s.m_Cache (normalizeId a_ID) = some it) (hl : it.m_bLoaded = false)
    (hlen : (env.readData it.m_Path).length ≠ it.m_Size) :
    Find env s a_ID =
      (some (resizedItem it (env.readData it.m_Path)),
       { s with
         m_Cache := mapSet s.m_Cache (normalizeId a_ID)
                      (resizedItem it (env.readData it.m_Path)),
         m_CurrentCacheSize :=
           if it.m_Size < (env.readData it.m_Path).length then
             (s.m_CurrentCacheSize + ((env.readData it.m_Path).length - it.m_Size)) % U32
           else
             (s.m_CurrentCacheSize + U32 - (it.m_Size - (env.readData it.m_Path).length)) % U32 }) := by
  unfold Find
  simp only [h, hl]
  simp [hlen, resizedItem]

theorem Find_preserves (env : Env) (s : DataCache) (a_ID : String)
    (hwf : WF s) (hinv : SizeInv s) :
    WF (Find env s a_ID).2 ∧ SizeInv (Find env s a_ID).2 := by
  cases hfind : mapFind s.m_Cache (normalizeId a_ID) with
  | none =>
    rw [Find_absent env s a_ID hfind]
    exact ⟨hwf, hinv⟩
  | some it =>
    have hmem := mapFind_mem _ _ _ hfind
    have hprops := hwf.2 _ hmem
    have hid : it.m_Id = normalizeId a_ID := hprops.1
    have hnk : normalizeId (normalizeId a_ID) = normalizeId a_ID := hprops.2.1
    have hsz : it.m_Size < U32 := hprops.2.2
    cases hl : it.m_bLoaded with
    | true =>
      rw [Find_loaded env s a_ID it hfind hl]
      exact ⟨hwf, hinv⟩
    | false =>
      by_cases hlen : (env.readData it.m_Path).length = it.m_Size
      · rw [Find_load_eq env s a_ID it hfind hl hlen]
        constructor
        · exact mapWF_mapSet _ _ _ hwf hid hnk hsz
        · show s.m_CurrentCacheSize = sumSizes (mapSet s.m_Cache (normalizeId a_ID)
            (loadedItem it (env.readData it.m_Path))) % U32
          have hsum := sumSizes_mapSet_some s.m_Cache (normalizeId a_ID)
            (loadedItem it (env.readData it.m_Path)) it hwf.1 hfind
          rw [loadedItem_size] at hsum
          rw [SizeInv] at hinv
          simp only [U32] at *
          omega
      · rw [Find_load_mismatch env s a_ID it hfind hl hlen]
        constructor
        · exact mapWF_mapSet _ _ _ hwf hid hnk (Nat.mod_lt _ (by simp [U32]))
        · have hsum := sumSizes_mapSet_some s.m_Cache (normalizeId a_ID)
            (resizedItem it (env.readData it.m_Path)) it hwf.1 hfind
          have hle := size_le_sumSizes _ _ _ hfind
          rw [resizedItem_size] at hsum
          rw [SizeInv] at hinv
          show (if it.m_Size < (env.readData it.m_Path).length then
              (s.m_CurrentCacheSize + ((env.readData it.m_Path).length - it.m_Size)) % U32
            else
              (s.m_CurrentCacheSize + U32 - (it.m_Size - (env.readData it.m_Path).length)) % U32)
            = sumSizes (mapSet s.m_Cache (normalizeId a_ID)
                (resizedItem it (env.readData it.m_Path))) % U32
          by_cases hib : it.m_Size < (env.readData it.m_Path).length
          · rw [if_pos hib]
            simp only [U32] at *
            omega
          · rw [if_neg hib]
            simp only [U32] at *
            omega

/-! ## Initialize: the directory scan -/

theorem scanFile_step (s : DataCache) (f : ScannedFile)
    (hfind : mapFind s.m_Cache f.stem = none) :
    ∃ it : CacheItem, it.m_Id = f.stem ∧ it.m_Size < U32 ∧
      (scanFile s f).m_Cache = mapSet s.m_Cache f.stem it ∧
      ((scanFile s f).m_CurrentCacheSize = s.m_CurrentCacheSize ∧ it.m_Size = 0 ∨
       (scanFile s f).m_CurrentCacheSize = (s.m_CurrentCacheSize + it.m_Size) % U32) := by
  have hpos : 0 < U32 := by decide
  unfold scanFile
  simp only [hfind, Option.getD_none]
  by_cases h1 : f.mtimeFails = true
  · rw [if_pos h1]
    exact ⟨⟨f.stem, f.fullPath, 0, 0, false, ""⟩, rfl, hpos, rfl, Or.inl ⟨rfl, rfl⟩⟩
  · rw [if_neg h1]
    by_cases h2 : f.sizeFails = true
    · rw [if_pos h2]
      exact ⟨⟨f.stem, f.fullPath, f.mtime, 0, false, ""⟩, rfl, hpos, rfl, Or.inl ⟨rfl, rfl⟩⟩
    · rw [if_neg h2]
      exact ⟨⟨f.stem, f.fullPath, f.mtime, f.fsize % U32, false, ""⟩, rfl,
        Nat.mod_lt _ hpos, rfl, Or.inr rfl⟩

theorem scanFold_preserves (files : List ScannedFile) :
    ∀ s : DataCache, WF s → SizeInv s →
      (files.map (fun f => f.stem)).Nodup →
      (∀ f ∈ files, normalizeId f.stem = f.stem) →
      (∀ f ∈ files, mapFind s.m_Cache f.stem = none) →
      WF (files.foldl scanFile s) ∧ SizeInv (files.foldl scanFile s) := by
  induction files with
  | nil => intro s h1 h2 _ _ _; exact ⟨h1, h2⟩
  | cons f rest ih =>
    intro s h1 h2 hnd hns habs
    rw [List.foldl_cons]
    have hfind := habs f (List.mem_cons_self f rest)
    obtain ⟨it, hit_id, hit_sz, hcache, htot⟩ := scanFile_step s f hfind
    have hnd' : (f.stem :: rest.map (fun f => f.stem)).Nodup := by simpa using hnd
    have hwf' : WF (scanFile s f) := by
      show mapWF (scanFile s f).m_Cache
      rw [hcache]
      exact mapWF_mapSet _ _ _ h1 hit_id (hns f (List.mem_cons_self f rest)) hit_sz
    have hinv' : SizeInv (scanFile s f) := by
      rw [SizeInv, hcache]
      have hsum := sumSizes_mapSet_none s.m_Cache f.stem it hfind
      rw [SizeInv] at h2
      rcases htot with ⟨ht, hz⟩ | ht
      · rw [ht]
        rw [hz] at hsum
        simp only [U32] at *
        omega
      · rw [ht]
        simp only [U32] at *
        omega
    refine ih (scanFile s f) hwf' hinv' ?_ ?_ ?_
    · exact (List.nodup_cons.1 hnd').2
    · intro g hg
      exact hns g (List.mem_cons_of_mem f hg)
    · intro g hg
      rw [hcache, mapFind_mapSet_ne]
      · exact habs g (List.mem_cons_of_mem f hg)
      · intro he
        have hmem : f.stem ∈ rest.map (fun f => f.stem) := by
          rw [← he]
          exact List.mem_map_of_mem _ hg
        exact (List.nodup_cons.1 hnd').1 hmem

theorem Initialize_fail (env : Env) (s : DataCache) (p : String) (msz : Nat) (mage : ℚ)
    (h1 : env.dirIsDir = false) (h2 : env.createFails = true) :
    Initialize env s p msz mage =
      (false,
       { s with m_bInitialized := true, m_CachePath := p,
                m_MaxCacheSize := msz % U32, m_MaxCacheAge := mage }, []) := by
  unfold Initialize
  simp [h1, h2]

theorem Initialize_ok (env : Env) (s : DataCache) (p : String) (msz : Nat) (mage : ℚ)
    (h : (!env.dirIsDir && env.createFails) = false) :
    Initialize env s p msz mage =
      (true,
       (FlushAged env (env.listing.foldl scanFile
         { s with m_bInitialized := true, m_CachePath := p,
                  m_MaxCacheSize := msz % U32, m_MaxCacheAge := mage,
                  m_Cache := [], m_CurrentCacheSize := 0 })).2.1,
       (FlushAged env (env.listing.foldl scanFile
         { s with m_bInitialized := true, m_CachePath := p,
                  m_MaxCacheSize := msz % U32, m_MaxCacheAge := mage,
                  m_Cache := [], m_CurrentCacheSize := 0 })).2.2) := by
  unfold Initialize
  simp [h]

theorem Initialize_preserves (env : Env) (s : DataCache) (p : String) (msz : Nat)
    (mage : ℚ) (hwf : WF s) (hinv : SizeInv s) (hgl : goodListing env) :
    WF (Initialize env s p msz mage).2.1 ∧ SizeInv (Initialize env s p msz mage).2.1 := by
  by_cases hd : (!env.dirIsDir && env.createFails) = true
  · have h1 : env.dirIsDir = false := by
      cases h : env.dirIsDir
      · rfl
      · rw [h] at hd; simp at hd
    have h2 : env.createFails = true := by
      cases h : env.createFails
      · rw [h] at hd; simp at hd
      · rfl
    rw [Initialize_fail env s p msz mage h1 h2]
    exact ⟨hwf, hinv⟩
  · have hd' : (!env.dirIsDir && env.createFails) = false := by
      cases h : (!env.dirIsDir && env.createFails)
      · rfl
      · exact absurd h hd
    rw [Initialize_ok env s p msz mage hd']
    have hwf1 : WF ({ s with m_bInitialized := true, m_CachePath := p,
                             m_MaxCacheSize := msz % U32, m_MaxCacheAge := mage,
                             m_Cache := [], m_CurrentCacheSize := 0 } : DataCache) := by
      constructor
      · exact List.Pairwise.nil
      · intro q hq
        exact absurd hq (List.not_mem_nil q)
    have hinv1 : SizeInv ({ s with m_bInitialized := true, m_CachePath := p,
                                   m_MaxCacheSize := msz % U32, m_MaxCacheAge := mage,
                                   m_Cache := [], m_CurrentCacheSize := 0 } : DataCache) := rfl
    have hscan := scanFold_preserves env.listing _ hwf1 hinv1 hgl.1 hgl.2 (fun f _ => rfl)
    exact FlushAged_preserves env _ hscan.1 hscan.2

/-! ## Persistence of saved data -/

theorem holdsData_Flush (env : Env) (s : DataCache) (a_ID k d : String)
    (hwf : WF s) (hh : holdsData s k d) :
    holdsData (Flush env s a_ID).2.1 k d := by
  cases hfind : mapFind s.m_Cache (normalizeId a_ID) with
  | none =>
    rw [Flush_none env s a_ID hfind]
    exact hh
  | some it =>
    cases hrf : env.removeFails it.m_Path with
    | true =>
      rw [Flush_fail env s a_ID it hfind hrf]
      exact hh
    | false =>
      rw [Flush_ok env s a_ID it hfind hrf]
      intro q hq
      have hq' : mapFind (mapErase s.m_Cache (normalizeId a_ID)) k = some q := hq
      by_cases hk : k = normalizeId a_ID
      · rw [hk, mapFind_mapErase_self s.m_Cache (normalizeId a_ID) hwf.1] at hq'
        exact absurd hq' (by simp)
      · rw [mapFind_mapErase_ne s.m_Cache (normalizeId a_ID) k hk] at hq'
        exact hh q hq'

theorem holdsData_Find (env : Env) (s : DataCache) (a_ID k d : String)
    (hh : holdsData s k d) : holdsData (Find env s a_ID).2 k d := by
  cases hfind : mapFind s.m_Cache (normalizeId a_ID) with
  | none =>
    rw [Find_absent env s a_ID hfind]
    exact hh
  | some it =>
    cases hl : it.m_bLoaded with
    | true =>
      rw [Find_loaded env s a_ID it hfind hl]
      exact hh
    | false =>
      by_cases hk : normalizeId a_ID = k
      · rw [hk] at hfind
        have hload := (hh it hfind).1
        rw [hl] at hload
        exact absurd hload (by simp)
      · have hk' : k ≠ normalizeId a_ID := fun hh' => hk hh'.symm
        by_cases hlen : (env.readData it.m_Path).length = it.m_Size
        · rw [Find_load_eq env s a_ID it hfind hl hlen]
          intro q hq
          have hq' : mapFind (mapSet s.m_Cache (normalizeId a_ID)
              (loadedItem it (env.readData it.m_Path))) k = some q := hq
          rw [mapFind_mapSet_ne _ _ _ _ hk'] at hq'
          exact hh q hq'
        · rw [Find_load_mismatch env s a_ID it hfind hl hlen]
          intro q hq
          have hq' : mapFind (mapSet s.m_Cache (normalizeId a_ID)
              (resizedItem it (env.readData it.m_Path))) k = some q := hq
          rw [mapFind_mapSet_ne _ _ _ _ hk'] at hq'
          exact hh q hq'

theorem holdsData_FlushOldest (env : Env) (s : DataCache) (k d : String)
    (hwf : WF s) (hh : holdsData s k d) :
    holdsData (FlushOldest env s).2.1 k d := by
  unfold FlushOldest
  cases h : oldestItem s.m_Cache with
  | none => exact hh
  | some it => exact holdsData_Flush env s it.m_Id k d hwf hh

theorem holdsData_evictFuel (env : Env) (fuel : Nat) :
    ∀ s s' eff k d, WF s → SizeInv s → holdsData s k d →
      evictLoopFuel env fuel s = some (s', eff) → holdsData s' k d := by
  induction fuel with
  | zero =>
    intro s s' eff k d _ _ _ h
    simp [evictLoopFuel] at h
  | succ n ih =>
    intro s s' eff k d hwf hinv hh h
    rw [evictLoopFuel] at h
    by_cases hle : s.m_CurrentCacheSize ≤ s.m_MaxCacheSize
    · rw [if_pos hle] at h
      injection h with h
      injection h with h1 h2
      rw [← h1]
      exact hh
    · rw [if_neg hle] at h
      by_cases hlen : (FlushOldest env s).2.1.m_Cache.length < s.m_Cache.length
      · rw [if_pos hlen] at h
        cases hrec : evictLoopFuel env n (FlushOldest env s).2.1 with
        | none => rw [hrec] at h; exact absurd h (by simp)
        | some r =>
          rw [hrec] at h
          obtain ⟨s3, eff3⟩ := r
          simp only [] at h
          injection h with h
          injection h with h1 h2
          rw [← h1]
          have hp := FlushOldest_preserves env s hwf hinv
          exact ih _ _ _ k d hp.1 hp.2 (holdsData_FlushOldest env s k d hwf hh) hrec
      · rw [if_neg hlen] at h
        exact absurd h (by simp)

theorem holdsData_saveState_self (env : Env) (s1 : DataCache) (id a_Data : String) :
    holdsData (saveState env s1 id a_Data) id a_Data := by
  intro q hq
  have hq' : mapFind (mapSet s1.m_Cache id
      ⟨id, s1.m_CachePath ++ id ++ ".bytes", env.now, a_Data.length % U32, true, a_Data⟩)
      id = some q := hq
  rw [mapFind_mapSet_self] at hq'
  injection hq' with hq'
  rw [← hq']
  exact ⟨rfl, rfl⟩

theorem holdsData_saveState_other (env : Env) (s1 : DataCache) (id a_Data k d : String)
    (hk : k ≠ id) (hh : holdsData s1 k d) :
    holdsData (saveState env s1 id a_Data) k d := by
  intro q hq
  have hq' : mapFind (mapSet s1.m_Cache id
      ⟨id, s1.m_CachePath ++ id ++ ".bytes", env.now, a_Data.length % U32, true, a_Data⟩)
      k = some q := hq
  rw [mapFind_mapSet_ne _ _ _ _ hk] at hq'
  exact hh q hq'

theorem Save_establishes (env : Env) (s : DataCache) (a_ID a_Data : String)
    (s' : DataCache) (eff : List FileOp) (hwf : WF s) (hinv : SizeInv s)
    (hsave : Save env s a_ID a_Data = some (true, s', eff)) :
    holdsData s' (normalizeId a_ID) a_Data := by
  cases hfind : mapFind s.m_Cache (normalizeId a_ID) with
  | none =>
    rw [Save_of_absent env s a_ID a_Data hfind] at hsave
    cases hev : evictLoop env (saveState env s (normalizeId a_ID) a_Data) with
    | none => rw [saveWrite_none _ _ _ _ _ hev] at hsave; exact absurd hsave (by simp)
    | some r =>
      obtain ⟨s3, eff2⟩ := r
      rw [saveWrite_some _ _ _ _ _ _ _ hev] at hsave
      injection hsave with hsave
      injection hsave with h1 h2
      injection h2 with h2 h3
      rw [← h2]
      have hss := saveState_preserves env s (normalizeId a_ID) a_Data hwf hinv
        (normalizeId_idem a_ID) hfind
      unfold evictLoop at hev
      exact holdsData_evictFuel env _ _ _ _ _ _ hss.1 hss.2
        (holdsData_saveState_self env s (normalizeId a_ID) a_Data) hev
  | some it =>
    cases hrf : env.removeFails it.m_Path with
    | true =>
      rw [Save_of_flushFail env s a_ID a_Data it hfind hrf] at hsave
      injection hsave with hsave
      injection hsave with h1 h2
      exact absurd h1.symm (by simp)
    | false =>
      rw [Save_of_flushOk env s a_ID a_Data it hfind hrf] at hsave
      have hp := Flush_preserves env s a_ID hwf hinv
      rw [Flush_ok env s a_ID it hfind hrf] at hp
      have hnone1 : mapFind (mapErase s.m_Cache (normalizeId a_ID)) (normalizeId a_ID)
          = none := mapFind_mapErase_self s.m_Cache (normalizeId a_ID) hwf.1
      cases hev : evictLoop env (saveState env
          { s with m_CurrentCacheSize := (s.m_CurrentCacheSize + U32 - it.m_Size) % U32,
                   m_Cache := mapErase s.m_Cache (normalizeId a_ID) }
          (normalizeId a_ID) a_Data) with
      | none => rw [saveWrite_none _ _ _ _ _ hev] at hsave; exact absurd hsave (by simp)
      | some r =>
        obtain ⟨s3, eff2⟩ := r
        rw [saveWrite_some _ _ _ _ _ _ _ hev] at hsave
        injection hsave with hsave
        injection hsave with h1 h2
        injection h2 with h2 h3
        rw [← h2]
        have hss := saveState_preserves env _ (normalizeId a_ID) a_Data hp.1 hp.2
          (normalizeId_idem a_ID) hnone1
        unfold evictLoop at hev
        exact holdsData_evictFuel env _ _ _ _ _ _ hss.1 hss.2
          (holdsData_saveState_self env _ (normalizeId a_ID) a_Data) hev

theorem holdsData_Save (env : Env) (s : DataCache) (a_ID a_Data k d : String)
    (b : Bool) (s' : DataCache) (eff : List FileOp)
    (hwf : WF s) (hinv : SizeInv s) (hk : k ≠ normalizeId a_ID)
    (hh : holdsData s k d)
    (hsave : Save env s a_ID a_Data = some (b, s', eff)) :
    holdsData s' k d := by
  cases hfind : mapFind s.m_Cache (normalizeId a_ID) with
  | none =>
    rw [Save_of_absent env s a_ID a_Data hfind] at hsave
    cases hev : evictLoop env (saveState env s (normalizeId a_ID) a_Data) with
    | none => rw [saveWrite_none _ _ _ _ _ hev] at hsave; exact absurd hsave (by simp)
    | some r =>
      obtain ⟨s3, eff2⟩ := r
      rw [saveWrite_some _ _ _ _ _ _ _ hev] at hsave
      injection hsave with hsave
      injection hsave with h1 h2
      injection h2 with h2 h3
      rw [← h2]
      have hss := saveState_preserves env s (normalizeId a_ID) a_Data hwf hinv
        (normalizeId_idem a_ID) hfind
      unfold evictLoop at hev
      exact holdsData_evictFuel env _ _ _ _ _ _ hss.1 hss.2
        (holdsData_saveState_other env s (normalizeId a_ID) a_Data k d hk hh) hev
  | some it =>
    cases hrf : env.removeFails it.m_Path with
    | true =>
      rw [Save_of_flushFail env s a_ID a_Data it hfind hrf] at hsave
      injection hsave with hsave
      injection hsave with h1 h2
      injection h2 with h2 h3
      rw [← h2]
      exact hh
    | false =>
      rw [Save_of_flushOk env s a_ID a_Data it hfind hrf] at hsave
      have hp := Flush_preserves env s a_ID hwf hinv
      have hhf := holdsData_Flush env s a_ID k d hwf hh
      rw [Flush_ok env s a_ID it hfind hrf] at hp hhf
      have hnone1 : mapFind (mapErase s.m_Cache (normalizeId a_ID)) (normalizeId a_ID)
          = none := mapFind_mapErase_self s.m_Cache (normalizeId a_ID) hwf.1
      cases hev : evictLoop env (saveState env
          { s with m_CurrentCacheSize := (s.m_CurrentCacheSize + U32 - it.m_Size) % U32,
                   m_Cache := mapErase s.m_Cache (normalizeId a_ID) }
          (normalizeId a_ID) a_Data) with
      | none => rw [saveWrite_none _ _ _ _ _ hev] at hsave; exact absurd hsave (by simp)
      | some r =>
        obtain ⟨s3, eff2⟩ := r
        rw [saveWrite_some _ _ _ _ _ _ _ hev] at hsave
        injection hsave with hsave
        injection hsave with h1 h2
        injection h2 with h2 h3
        rw [← h2]
        have hss := saveState_preserves env _ (normalizeId a_ID) a_Data hp.1 hp.2
          (normalizeId_idem a_ID) hnone1
        unfold evictLoop at hev
        exact holdsData_evictFuel env _ _ _ _ _ _ hss.1 hss.2
          (holdsData_saveState_other env _ (normalizeId a_ID) a_Data k d hk hhf) hev

theorem holdsData_flushFold (env : Env) (ids : List String) :
    ∀ acc : Bool × DataCache × List FileOp, ∀ k d, WF acc.2.1 → SizeInv acc.2.1 →
      holdsData acc.2.1 k d → holdsData (ids.foldl (flushStep env) acc).2.1 k d := by
  induction ids with
  | nil => intro acc k d _ _ hh; exact hh
  | cons id rest ih =>
    intro acc k d h1 h2 hh
    rw [List.foldl_cons]
    exact ih _ k d (Flush_preserves env acc.2.1 id h1 h2).1
      (Flush_preserves env acc.2.1 id h1 h2).2
      (holdsData_Flush env acc.2.1 id k d h1 hh)

theorem holdsData_FlushAged (env : Env) (s : DataCache) (k d : String)
    (hwf : WF s) (hinv : SizeInv s) (hh : holdsData s k d) :
    holdsData (FlushAged env s).2.1 k d := by
  unfold FlushAged
  exact holdsData_flushFold env _ (false, s, []) k d hwf hinv hh

theorem holdsData_step (env : Env) (op : Op) (s s' : DataCache) (k d : String)
    (hwf : WF s) (hinv : SizeInv s) (hh : holdsData s k d)
    (hstep : step env op s = some s') :
    opFlushesKey k op ∨ (holdsData s' k d ∧ WF s' ∧ SizeInv s') := by
  cases op with
  | doInit p msz mage => left; trivial
  | doFind id =>
    simp only [step] at hstep
    injection hstep with h
    rw [← h]
    right
    have hp := Find_preserves env s id hwf hinv
    exact ⟨holdsData_Find env s id k d hh, hp.1, hp.2⟩
  | doSave id dd =>
    by_cases hk : normalizeId id = k
    · left; exact hk
    · right
      simp only [step] at hstep
      cases hs : Save env s id dd with
      | none => rw [hs] at hstep; exact absurd hstep (by simp)
      | some r =>
        rw [hs] at hstep
        obtain ⟨b, s2, eff⟩ := r
        simp at hstep
        rw [← hstep]
        have hp := Save_preserves env s id dd b s2 eff hwf hinv hs
        exact ⟨holdsData_Save env s id dd k d b s2 eff hwf hinv
          (fun hh' => hk hh'.symm) hh hs, hp.1, hp.2⟩
  | doFlush id =>
    simp only [step] at hstep
    injection hstep with h
    rw [← h]
    right
    have hp := Flush_preserves env s id hwf hinv
    exact ⟨holdsData_Flush env s id k d hwf hh, hp.1, hp.2⟩
  | doFlushAged =>
    simp only [step] at hstep
    injection hstep with h
    rw [← h]
    right
    have hp := FlushAged_preserves env s hwf hinv
    exact ⟨holdsData_FlushAged env s k d hwf hinv hh, hp.1, hp.2⟩
  | doFlushOldest =>
    simp only [step] at hstep
    injection hstep with h
    rw [← h]
    right
    have hp := FlushOldest_preserves env s hwf hinv
    exact ⟨holdsData_FlushOldest env s k d hwf hh, hp.1, hp.2⟩
  | doFlushAll =>
    simp only [step] at hstep
    injection hstep with h
    rw [← h]
    right
    refine ⟨fun q hq => ?_, ⟨List.Pairwise.nil, fun q hq => absurd hq (List.not_mem_nil q)⟩, rfl⟩
    have hq' : mapFind ([] : CacheMap) k = some q := hq
    exact absurd hq' (by simp [mapFind])
  | doUninit =>
    simp only [step] at hstep
    injection hstep with h
    rw [← h]
    right
    refine ⟨fun q hq => ?_, ⟨List.Pairwise.nil, fun q hq => absurd hq (List.not_mem_nil q)⟩, rfl⟩
    have hq' : mapFind ([] : CacheMap) k = some q := hq
    exact absurd hq' (by simp [mapFind])

theorem holdsData_run (l : List (Env × Op)) :
    ∀ s s' k d, WF s → SizeInv s → holdsData s k d → runSteps l s = some s' →
      holdsData s' k d ∨ ∃ p ∈ l, opFlushesKey k p.2 := by
  induction l with
  | nil =>
    intro s s' k d _ _ hh h
    rw [runSteps] at h
    injection h with h
    rw [← h]
    exact Or.inl hh
  | cons p rest ih =>
    intro s s' k d hwf hinv hh h
    rw [runSteps] at h
    cases hstep : step p.1 p.2 s with
    | none => rw [hstep] at h; exact absurd h (by simp)
    | some s1 =>
      rw [hstep] at h
      rcases holdsData_step p.1 p.2 s s1 k d hwf hinv hh hstep with hop | ⟨hh1, hwf1, hinv1⟩
      · exact Or.inr ⟨p, List.mem_cons_self p rest, hop⟩
      · rcases ih s1 s' k d hwf1 hinv1 hh1 h with h' | ⟨q, hq, hop⟩
        · exact Or.inl h'
        · exact Or.inr ⟨q, List.mem_cons_of_mem _ hq, hop⟩

/-! ## Save result characterization -/

theorem saveWrite_result_true (env : Env) (s1 : DataCache) (id a_Data : String)
    (eff1 : List FileOp) (b : Bool) (s' : DataCache) (eff : List FileOp)
    (h : saveWrite env s1 id a_Data eff1 = some (b, s', eff)) : b = true := by
  cases hev : evictLoop env (saveState env s1 id a_Data) with
  | none => rw [saveWrite_none _ _ _ _ _ hev] at h; exact absurd h (by simp)
  | some r =>
    obtain ⟨s3, eff2⟩ := r
    rw [saveWrite_some _ _ _ _ _ _ _ hev] at h
    injection h with h
    injection h with h1 h2
    exact h1.symm

theorem saveWrite_le (env : Env) (s1 : DataCache) (id a_Data : String)
    (eff1 : List FileOp) (b : Bool) (s' : DataCache) (eff : List FileOp)
    (h : saveWrite env s1 id a_Data eff1 = some (b, s', eff)) :
    s'.m_CurrentCacheSize ≤ s'.m_MaxCacheSize := by
  cases hev : evictLoop env (saveState env s1 id a_Data) with
  | none => rw [saveWrite_none _ _ _ _ _ hev] at h; exact absurd h (by simp)
  | some r =>
    obtain ⟨s3, eff2⟩ := r
    rw [saveWrite_some _ _ _ _ _ _ _ hev] at h
    injection h with h
    injection h with h1 h2
    injection h2 with h2 h3
    rw [← h2]
    unfold evictLoop at hev
    exact evictLoopFuel_le env _ _ _ _ hev

theorem saveWrite_progress (env : Env) (s1 : DataCache) (id a_Data : String)
    (eff1 : List FileOp) (hwf : WF s1) (hinv : SizeInv s1) (hid : normalizeId id = id)
    (hnone : mapFind s1.m_Cache id = none) (hnr : noRemoveFails env) :
    saveWrite env s1 id a_Data eff1 ≠ none := by
  have hss := saveState_preserves env s1 id a_Data hwf hinv hid hnone
  have hprog := evictLoopFuel_progress env hnr
    ((saveState env s1 id a_Data).m_Cache.length + 1) (saveState env s1 id a_Data)
    hss.1 hss.2 (Nat.lt_succ_self _)
  cases hev : evictLoop env (saveState env s1 id a_Data) with
  | none => exact absurd hev hprog
  | some r =>
    obtain ⟨s3, eff2⟩ := r
    rw [saveWrite_some _ _ _ _ _ _ _ hev]
    simp

/-! ## FlushAged characterization -/

theorem Flush_wf (env : Env) (s : DataCache) (a_ID : String) (hwf : WF s) :
    WF (Flush env s a_ID).2.1 := by
  cases hfind : mapFind s.m_Cache (normalizeId a_ID) with
  | none => rw [Flush_none env s a_ID hfind]; exact hwf
  | some it =>
    cases hrf : env.removeFails it.m_Path with
    | true => rw [Flush_fail env s a_ID it hfind hrf]; exact hwf
    | false =>
      rw [Flush_ok env s a_ID it hfind hrf]
      exact mapWF_mapErase _ _ hwf

theorem keys_ne_of_mapFind_none (m : CacheMap) (k : String) (h : mapFind m k = none) :
    ∀ q ∈ m, ¬ q.1 = k := by
  induction m with
  | nil => intro q hq; simp at hq
  | cons p t ih =>
    intro q hq
    by_cases h1 : p.1 = k
    · rw [mapFind, if_pos h1] at h
      exact absurd h (by simp)
    · rw [mapFind, if_neg h1] at h
      rcases List.mem_cons.1 hq with hq | hq
      · rw [hq]; exact h1
      · exact ih h q hq

theorem mapFind_none_sublist (m m' : CacheMap) (k : String)
    (h : mapFind m k = none) (hs : m'.Sublist m) : mapFind m' k = none :=
  mapFind_eq_none_of_keys_ne m' k (fun q hq => keys_ne_of_mapFind_none m k h q (hs.subset hq))

theorem mapFind_none_Flush (env : Env) (s : DataCache) (a_ID k : String)
    (h : mapFind s.m_Cache k = none) :
    mapFind (Flush env s a_ID).2.1.m_Cache k = none := by
  cases hfind : mapFind s.m_Cache (normalizeId a_ID) with
  | none => rw [Flush_none env s a_ID hfind]; exact h
  | some it =>
    cases hrf : env.removeFails it.m_Path with
    | true => rw [Flush_fail env s a_ID it hfind hrf]; exact h
    | false =>
      rw [Flush_ok env s a_ID it hfind hrf]
      show mapFind (mapErase s.m_Cache (normalizeId a_ID)) k = none
      exact mapFind_none_sublist _ _ _ h (mapErase_sublist _ _)

theorem flushFold_none_stable (env : Env) (ids : List String) :
    ∀ acc : Bool × DataCache × List FileOp, ∀ k, mapFind acc.2.1.m_Cache k = none →
      mapFind (ids.foldl (flushStep env) acc).2.1.m_Cache k = none := by
  induction ids with
  | nil => intro acc k h; exact h
  | cons id rest ih =>
    intro acc k h
    rw [List.foldl_cons]
    refine ih (flushStep env acc id) k ?_
    show mapFind (Flush env acc.2.1 id).2.1.m_Cache k = none
    exact mapFind_none_Flush env acc.2.1 id k h

theorem flushFold_other (env : Env) (ids : List String) :
    ∀ acc : Bool × DataCache × List FileOp, ∀ k,
      (∀ id ∈ ids, normalizeId id = id) → k ∉ ids →
      mapFind (ids.foldl (flushStep env) acc).2.1.m_Cache k = mapFind acc.2.1.m_Cache k := by
  induction ids with
  | nil => intro acc k _ _; rfl
  | cons id rest ih =>
    intro acc k hns hk
    rw [List.foldl_cons]
    have hkid : k ≠ id := fun h => hk (by rw [h]; exact List.mem_cons_self id rest)
    have hkr : k ∉ rest := fun h => hk (List.mem_cons_of_mem id h)
    rw [ih (flushStep env acc id) k (fun g hg => hns g (List.mem_cons_of_mem id hg)) hkr]
    show mapFind (Flush env acc.2.1 id).2.1.m_Cache k = mapFind acc.2.1.m_Cache k
    cases hfind : mapFind acc.2.1.m_Cache (normalizeId id) with
    | none => rw [Flush_none env acc.2.1 id hfind]
    | some it =>
      cases hrf : env.removeFails it.m_Path with
      | true => rw [Flush_fail env acc.2.1 id it hfind hrf]
      | false =>
        rw [Flush_ok env acc.2.1 id it hfind hrf]
        show mapFind (mapErase acc.2.1.m_Cache (normalizeId id)) k = _
        rw [hns id (List.mem_cons_self id rest)]
        exact mapFind_mapErase_ne _ _ _ hkid

theorem flushFold_removes (env : Env) (hnr : noRemoveFails env) (ids : List String) :
    ∀ acc : Bool × DataCache × List FileOp, WF acc.2.1 → ids.Nodup →
      (∀ id ∈ ids, normalizeId id = id) →
      (∀ id ∈ ids, ∃ q, mapFind acc.2.1.m_Cache id = some q) →
      ∀ k ∈ ids, mapFind (ids.foldl (flushStep env) acc).2.1.m_Cache k = none := by
  induction ids with
  | nil => intro acc _ _ _ _ k hk; simp at hk
  | cons id rest ih =>
    intro acc hwf hnd hns hpres k hk
    rw [List.foldl_cons]
    obtain ⟨q, hq⟩ := hpres id (List.mem_cons_self id rest)
    have hfindn : mapFind acc.2.1.m_Cache (normalizeId id) = some q := by
      rw [hns id (List.mem_cons_self id rest)]; exact hq
    have hFl := Flush_ok env acc.2.1 id q hfindn (hnr q.m_Path)
    have hstep_cache : (flushStep env acc id).2.1.m_Cache
        = mapErase acc.2.1.m_Cache (normalizeId id) := by
      show (Flush env acc.2.1 id).2.1.m_Cache = _
      rw [hFl]
    have hwf' : WF (flushStep env acc id).2.1 := by
      show WF (Flush env acc.2.1 id).2.1
      exact Flush_wf env acc.2.1 id hwf
    rcases List.mem_cons.1 hk with hk | hk
    · refine flushFold_none_stable env rest (flushStep env acc id) k ?_
      rw [hstep_cache, hk, hns id (List.mem_cons_self id rest)]
      exact mapFind_mapErase_self _ _ hwf.1
    · refine ih (flushStep env acc id) hwf' (List.nodup_cons.1 hnd).2
        (fun g hg => hns g (List.mem_cons_of_mem id hg)) ?_ k hk
      intro g hg
      obtain ⟨q', hq'⟩ := hpres g (List.mem_cons_of_mem id hg)
      refine ⟨q', ?_⟩
      rw [hstep_cache, hns id (List.mem_cons_self id rest),
        mapFind_mapErase_ne _ _ _ (fun h => (List.nodup_cons.1 hnd).1 (by rw [← h]; exact hg))]
      exact hq'

theorem flushFold_true (env : Env) (hnr : noRemoveFails env) (ids : List String) :
    ∀ acc : Bool × DataCache × List FileOp, WF acc.2.1 → ids.Nodup →
      (∀ id ∈ ids, normalizeId id = id) →
      (∀ id ∈ ids, ∃ q, mapFind acc.2.1.m_Cache id = some q) →
      (ids.foldl (flushStep env) acc).1 = (acc.1 || !ids.isEmpty) := by
  induction ids with
  | nil => intro acc _ _ _ _; simp
  | cons id rest ih =>
    intro acc hwf hnd hns hpres
    rw [List.foldl_cons]
    obtain ⟨q, hq⟩ := hpres id (List.mem_cons_self id rest)
    have hfindn : mapFind acc.2.1.m_Cache (normalizeId id) = some q := by
      rw [hns id (List.mem_cons_self id rest)]; exact hq
    have hFl := Flush_ok env acc.2.1 id q hfindn (hnr q.m_Path)
    have hstep_cache : (flushStep env acc id).2.1.m_Cache
        = mapErase acc.2.1.m_Cache (normalizeId id) := by
      show (Flush env acc.2.1 id).2.1.m_Cache = _
      rw [hFl]
    have hwf' : WF (flushStep env acc id).2.1 := by
      show WF (Flush env acc.2.1 id).2.1
      exact Flush_wf env acc.2.1 id hwf
    have h1 : (flushStep env acc id).1 = true := by
      show (acc.1 || (Flush env acc.2.1 id).1) = true
      rw [hFl]
      simp
    rw [ih (flushStep env acc id) hwf' (List.nodup_cons.1 hnd).2
      (fun g hg => hns g (List.mem_cons_of_mem id hg)) ?_]
    · rw [h1]
      simp
    · intro g hg
      obtain ⟨q', hq'⟩ := hpres g (List.mem_cons_of_mem id hg)
      refine ⟨q', ?_⟩
      rw [hstep_cache, hns id (List.mem_cons_self id rest),
        mapFind_mapErase_ne _ _ _ (fun h => (List.nodup_cons.1 hnd).1 (by rw [← h]; exact hg))]
      exact hq'

theorem FlushAged_eq (env : Env) (s : DataCache) :
    FlushAged env s = ((s.m_Cache.filter (agedB env s)).map (fun p => p.2.m_Id)).foldl
      (flushStep env) (false, s, []) := rfl

theorem flushList_mem (env : Env) (s : DataCache) (hwf : WF s) (k : String)
    (it : CacheItem) (hmem : (k, it) ∈ s.m_Cache) (haged : agedB env s (k, it) = true) :
    k ∈ (s.m_Cache.filter (agedB env s)).map (fun p => p.2.m_Id) := by
  have hf : (k, it) ∈ s.m_Cache.filter (agedB env s) := List.mem_filter.2 ⟨hmem, haged⟩
  have hmm : it.m_Id ∈ (s.m_Cache.filter (agedB env s)).map (fun p => p.2.m_Id) :=
    List.mem_map_of_mem _ hf
  rwa [(hwf.2 _ hmem).1] at hmm

theorem flushList_not_mem (env : Env) (s : DataCache) (hwf : WF s) (k : String)
    (it : CacheItem) (hmem : (k, it) ∈ s.m_Cache) (haged : agedB env s (k, it) = false) :
    k ∉ (s.m_Cache.filter (agedB env s)).map (fun p => p.2.m_Id) := by
  intro hk
  rcases List.mem_map.1 hk with ⟨p, hp, hpk⟩
  have hpm : p ∈ s.m_Cache := (List.filter_sublist _).subset hp
  have hpa : agedB env s p = true := (List.mem_filter.1 hp).2
  have hpkey : p.1 = k := by rw [← (hwf.2 _ hpm).1]; exact hpk
  have h1 : mapFind s.m_Cache k = some it := mapFind_of_mem _ _ _ hwf.1 hmem
  have h2 : mapFind s.m_Cache p.1 = some p.2 := mapFind_of_mem _ _ _ hwf.1 hpm
  rw [hpkey, h1] at h2
  injection h2 with h2
  have hsame : agedB env s (k, it) = agedB env s p := by
    unfold agedB
    rw [h2]
  rw [hsame, hpa] at haged
  exact absurd haged (by simp)

theorem flushList_nodup (env : Env) (s : DataCache) (hwf : WF s) :
    ((s.m_Cache.filter (agedB env s)).map (fun p => p.2.m_Id)).Nodup := by
  have hsub : (s.m_Cache.filter (agedB env s)).Sublist s.m_Cache := List.filter_sublist _
  have hsorted : (s.m_Cache.filter (agedB env s)).Pairwise (fun a b => a.1 < b.1) :=
    List.Pairwise.sublist hsub hwf.1
  have hmapeq : (s.m_Cache.filter (agedB env s)).map (fun p => p.2.m_Id)
      = (s.m_Cache.filter (agedB env s)).map (fun p => p.1) :=
    List.map_congr_left (fun p hp => (hwf.2 p (hsub.subset hp)).1)
  rw [hmapeq]
  exact List.Pairwise.map _ (fun a b hab => ne_of_lt hab) hsorted

theorem flushList_present (env : Env) (s : DataCache) (hwf : WF s) :
    ∀ id ∈ (s.m_Cache.filter (agedB env s)).map (fun p => p.2.m_Id),
      normalizeId id = id ∧ ∃ q, mapFind s.m_Cache id = some q := by
  intro id hid
  rcases List.mem_map.1 hid with ⟨p, hp, hpk⟩
  have hpm : p ∈ s.m_Cache := (List.filter_sublist _).subset hp
  have hprops := hwf.2 _ hpm
  have hkey : p.1 = id := by rw [← hprops.1]; exact hpk
  constructor
  · rw [← hkey]; exact hprops.2.1
  · exact ⟨p.2, by rw [← hkey]; exact mapFind_of_mem _ _ _ hwf.1 hpm⟩

/-! ## TimerPool lemmas -/

theorem insertLoop_split (t : ITimer) (q : List ITimer) :
    ∃ l₁ l₂, q = l₁ ++ l₂ ∧ (insertLoop t q).1 = l₁ ++ t :: l₂
      ∧ (∀ x ∈ l₁, x.alive = true → ¬ t.m_NextSignal < x.m_NextSignal)
      ∧ (∀ y ys, l₂ = y :: ys → y.alive = true ∧ t.m_NextSignal < y.m_NextSignal) := by
  induction q with
  | nil =>
    exact ⟨[], [], rfl, rfl, fun x hx => absurd hx (List.not_mem_nil x),
      fun y ys h => by simp at h⟩
  | cons x xs ih =>
    cases hal : x.alive with
    | false =>
      obtain ⟨l₁, l₂, hq, hres, hl1, hl2⟩ := ih
      have hstep : (insertLoop t (x :: xs)).1 = x :: (insertLoop t xs).1 := by
        simp [insertLoop, hal]
      refine ⟨x :: l₁, l₂, by rw [List.cons_append, ← hq], ?_, ?_, hl2⟩
      · rw [hstep, hres, List.cons_append]
      · intro z hz
        rcases List.mem_cons.1 hz with hz | hz
        · rw [hz]
          intro hzal
          rw [hal] at hzal
          exact absurd hzal (by simp)
        · exact hl1 z hz
    | true =>
      by_cases hlt : t.m_NextSignal < x.m_NextSignal
      · have hstep : (insertLoop t (x :: xs)).1 = t :: x :: xs := by
          simp [insertLoop, hal, hlt]
        refine ⟨[], x :: xs, rfl, by rw [hstep]; rfl,
          fun z hz => absurd hz (List.not_mem_nil z), ?_⟩
        intro y ys h
        injection h with h1 h2
        rw [← h1]
        exact ⟨hal, hlt⟩
      · obtain ⟨l₁, l₂, hq, hres, hl1, hl2⟩ := ih
        have hstep : (insertLoop t (x :: xs)).1 = x :: (insertLoop t xs).1 := by
          simp [insertLoop, hal, hlt]
        refine ⟨x :: l₁, l₂, by rw [List.cons_append, ← hq], ?_, ?_, hl2⟩
        · rw [hstep, hres, List.cons_append]
        · intro z hz
          rcases List.mem_cons.1 hz with hz | hz
          · rw [hz]
            intro _
            exact hlt
          · exact hl1 z hz

theorem insertLoop_append (t : ITimer) (pre rest : List ITimer)
    (h : ∀ x ∈ pre, x.alive = true → ¬ t.m_NextSignal < x.m_NextSignal) :
    (insertLoop t (pre ++ rest)).1 = pre ++ (insertLoop t rest).1 := by
  induction pre with
  | nil => simp
  | cons x xs ih =>
    rw [List.cons_append]
    have htail := ih (fun z hz => h z (List.mem_cons_of_mem _ hz))
    cases hal : x.alive with
    | false =>
      have hstep : (insertLoop t (x :: (xs ++ rest))).1
          = x :: (insertLoop t (xs ++ rest)).1 := by
        simp [insertLoop, hal]
      rw [hstep, htail, List.cons_append]
    | true =>
      have hnlt := h x (List.mem_cons_self x xs) hal
      have hstep : (insertLoop t (x :: (xs ++ rest))).1
          = x :: (insertLoop t (xs ++ rest)).1 := by
        simp [insertLoop, hal, hnlt]
      rw [hstep, htail, List.cons_append]

theorem drainLoop_no_wake (now : ℚ) (fuel : Nat) :
    ∀ q, (drainLoop now fuel q).2.2 = false := by
  induction fuel with
  | zero => intro q; rfl
  | succ n ih =>
    intro q
    cases q with
    | nil => rfl
    | cons x xs =>
      cases hal : x.alive with
      | false => simp [drainLoop, hal, ih]
      | true =>
        by_cases hd : now < x.m_NextSignal
        · simp [drainLoop, hal, hd]
        · cases hr : x.m_bRecurring with
          | true => simp [drainLoop, hal, hd, hr, InsertTimer, ih]
          | false => simp [drainLoop, hal, hd, hr, ih]

/-! ## Claim theorems -/

/-- C1: after a successful `Save(id, data)`, the normalized key holds the
saved bytes (`holdsData`): any entry found at it is loaded with data
`data`; hence `Find` on that id returns an item whose data equals `data`;
and this persists under any run of further operations until one that first
flushes or discards the key — a same-key `Save` (which flushes the old
entry, line 139) or `Initialize` (which clears the index) — while capacity
eviction and age flushes remove the key, after which the guarantee holds
vacuously, matching "until that key is flushed or evicted". -/
theorem C1_saved_data_persists (env : Env) (s : DataCache) (a_ID a_Data : String)
    (s' : DataCache) (eff : List FileOp) (hwf : WF s) (hinv : SizeInv s)
    (hsave : Save env s a_ID a_Data = some (true, s', eff)) :
    holdsData s' (normalizeId a_ID) a_Data
    ∧ (∀ env' it, (Find env' s' a_ID).1 = some it → it.m_Data = a_Data)
    ∧ (∀ l s'', runSteps l s' = some s'' →
        holdsData s'' (normalizeId a_ID) a_Data
        ∨ ∃ p ∈ l, opFlushesKey (normalizeId a_ID) p.2) := by
  have h1 := Save_establishes env s a_ID a_Data s' eff hwf hinv hsave
  have hps := Save_preserves env s a_ID a_Data true s' eff hwf hinv hsave
  refine ⟨h1, ?_, ?_⟩
  · intro env' it hfind
    cases hf : mapFind s'.m_Cache (normalizeId a_ID) with
    | none =>
      rw [Find_absent env' s' a_ID hf] at hfind
      exact absurd hfind (by simp)
    | some q =>
      have hq := h1 q hf
      rw [Find_loaded env' s' a_ID q hf hq.1] at hfind
      simp at hfind
      rw [← hfind]
      exact hq.2
  · intro l s'' hrun
    exact holdsData_run l s' s'' (normalizeId a_ID) a_Data hps.1 hps.2 h1 hrun

/-- C2 (amended): in `unsigned int` arithmetic the running total equals
the sum of the indexed entries' sizes reduced modulo 2^32 (`SizeInv`), and
every operation preserves this invariant together with well-formedness,
provided the listing scanned by `Initialize` has pairwise-distinct,
separator-free stems (`goodListing`).  Two scanned files sharing a stem
(e.g. `a.bytes` and `a.txt`) make `Initialize` add both sizes while
indexing only one entry, and `unsigned int` wrap-around makes the plain
(unreduced) sum diverge from the total — see the counterexample. -/
theorem C2_running_total_invariant (env : Env) (op : Op) (s s' : DataCache)
    (hwf : WF s) (hinv : SizeInv s) (hgl : goodListing env)
    (hstep : step env op s = some s') : WF s' ∧ SizeInv s' := by
  cases op with
  | doInit p msz mage =>
    simp only [step] at hstep
    injection hstep with h
    rw [← h]
    exact Initialize_preserves env s p msz mage hwf hinv hgl
  | doFind id =>
    simp only [step] at hstep
    injection hstep with h
    rw [← h]
    exact Find_preserves env s id hwf hinv
  | doSave id d =>
    simp only [step] at hstep
    cases hs : Save env s id d with
    | none => rw [hs] at hstep; exact absurd hstep (by simp)
    | some r =>
      rw [hs] at hstep
      obtain ⟨b, s2, eff⟩ := r
      simp at hstep
      rw [← hstep]
      exact Save_preserves env s id d b s2 eff hwf hinv hs
  | doFlush id =>
    simp only [step] at hstep
    injection hstep with h
    rw [← h]
    exact Flush_preserves env s id hwf hinv
  | doFlushAged =>
    simp only [step] at hstep
    injection hstep with h
    rw [← h]
    exact FlushAged_preserves env s hwf hinv
  | doFlushOldest =>
    simp only [step] at hstep
    injection hstep with h
    rw [← h]
    exact FlushOldest_preserves env s hwf hinv
  | doFlushAll =>
    simp only [step] at hstep
    injection hstep with h
    rw [← h]
    exact ⟨⟨List.Pairwise.nil, fun q hq => absurd hq (List.not_mem_nil q)⟩, rfl⟩
  | doUninit =>
    simp only [step] at hstep
    injection hstep with h
    rw [← h]
    exact ⟨⟨List.Pairwise.nil, fun q hq => absurd hq (List.not_mem_nil q)⟩, rfl⟩

/-- C3 (amended): whenever `Save` returns success the running total is at
most `m_MaxCacheSize`; and when no file deletion throws, `Save` — hence
its eviction loop, whose divergence the model returns as `none` —
terminates, each successful `FlushOldest` pass removing one entry.  As
stated the claim fails: if the oldest entry's file deletion throws,
`FlushOldest` removes nothing, the state repeats, and the `while` loop of
line 159-160 spins forever although an entry exists — see the
counterexample. -/
theorem C3_save_total_bounded (env : Env) (s : DataCache) (a_ID a_Data : String)
    (hwf : WF s) (hinv : SizeInv s) :
    (∀ s' eff, Save env s a_ID a_Data = some (true, s', eff) →
      s'.m_CurrentCacheSize ≤ s'.m_MaxCacheSize)
    ∧ (noRemoveFails env → Save env s a_ID a_Data ≠ none) := by
  constructor
  · intro s' eff h
    cases hfind : mapFind s.m_Cache (normalizeId a_ID) with
    | none =>
      rw [Save_of_absent env s a_ID a_Data hfind] at h
      exact saveWrite_le env s (normalizeId a_ID) a_Data [] true s' eff h
    | some it =>
      cases hrf : env.removeFails it.m_Path with
      | true =>
        rw [Save_of_flushFail env s a_ID a_Data it hfind hrf] at h
        injection h with h
        injection h with h1 h2
        exact absurd h1 (by simp)
      | false =>
        rw [Save_of_flushOk env s a_ID a_Data it hfind hrf] at h
        exact saveWrite_le env _ (normalizeId a_ID) a_Data _ true s' eff h
  · intro hnr
    cases hfind : mapFind s.m_Cache (normalizeId a_ID) with
    | none =>
      rw [Save_of_absent env s a_ID a_Data hfind]
      exact saveWrite_progress env s (normalizeId a_ID) a_Data []
        hwf hinv (normalizeId_idem a_ID) hfind hnr
    | some it =>
      rw [Save_of_flushOk env s a_ID a_Data it hfind (hnr it.m_Path)]
      have hp := Flush_preserves env s a_ID hwf hinv
      rw [Flush_ok env s a_ID it hfind (hnr it.m_Path)] at hp
      exact saveWrite_progress env _ (normalizeId a_ID) a_Data _
        hp.1 hp.2 (normalizeId_idem a_ID)
        (mapFind_mapErase_self s.m_Cache (normalizeId a_ID) hwf.1) hnr

/-- C4 (amended): `Save` reports failure exactly when an entry with the
same (normalized) key already exists and flushing it fails, i.e. that
entry's file deletion throws.  File-write errors are not failure paths:
the `ofstream` of lines 154-156 is never checked, so `Save` returns
success even when the write fails — see the counterexample. -/
theorem C4_save_failure_iff (env : Env) (s : DataCache) (a_ID a_Data : String) :
    (∃ s' eff, Save env s a_ID a_Data = some (false, s', eff)) ↔
    (∃ it, mapFind s.m_Cache (normalizeId a_ID) = some it ∧
      env.removeFails it.m_Path = true) := by
  constructor
  · rintro ⟨s', eff, h⟩
    cases hfind : mapFind s.m_Cache (normalizeId a_ID) with
    | none =>
      rw [Save_of_absent env s a_ID a_Data hfind] at h
      have := saveWrite_result_true env s (normalizeId a_ID) a_Data [] false s' eff h
      exact absurd this (by simp)
    | some it =>
      cases hrf : env.removeFails it.m_Path with
      | true => exact ⟨it, rfl, hrf⟩
      | false =>
        rw [Save_of_flushOk env s a_ID a_Data it hfind hrf] at h
        have := saveWrite_result_true env _ (normalizeId a_ID) a_Data _ false s' eff h
        exact absurd this (by simp)
  · rintro ⟨it, hfind, hrf⟩
    exact ⟨s, [FileOp.remove it.m_Path false],
      Save_of_flushFail env s a_ID a_Data it hfind hrf⟩

/-- C5: `Flush` error atomicity: for a present key whose file deletion
throws, `Flush` reports failure and leaves the whole state — in
particular the in-memory entry and the running total — unchanged; for an
absent key it reports failure with no state change and no file
operation. -/
theorem C5_flush_error_atomicity (env : Env) (s : DataCache) (a_ID : String) :
    (∀ it, mapFind s.m_Cache (normalizeId a_ID) = some it →
      env.removeFails it.m_Path = true →
      Flush env s a_ID = (false, s, [FileOp.remove it.m_Path false]))
    ∧ (mapFind s.m_Cache (normalizeId a_ID) = none →
      Flush env s a_ID = (false, s, [])) :=
  ⟨fun it h hrf => Flush_fail env s a_ID it h hrf, fun h => Flush_none env s a_ID h⟩

/-- C6 (amended): a successful `Save` writes the backing file at path
`m_CachePath ++ normalizedId ++ ".bytes"` — the plain string concatenation
of line 147, with no separator inserted — with the saved bytes as content;
the file name `normalizedId ++ ".bytes"` contains no `/`, so the file lies
flat under the cache directory exactly when `m_CachePath` ends with a
separator; and `normalizeId "a/b" = "a_b"`.  As stated ("located directly
under the configured cache directory", for every cache path) the claim
fails for a path without a trailing separator — see the counterexample. -/
theorem C6_save_backing_file (env : Env) (s : DataCache) (a_ID a_Data : String)
    (s' : DataCache) (eff : List FileOp)
    (hsave : Save env s a_ID a_Data = some (true, s', eff)) :
    FileOp.write (s.m_CachePath ++ normalizeId a_ID ++ ".bytes") a_Data
      (!env.writeFails (s.m_CachePath ++ normalizeId a_ID ++ ".bytes")) ∈ eff
    ∧ (∀ c ∈ (normalizeId a_ID ++ ".bytes").data, c ≠ '/')
    ∧ normalizeId "a/b" = "a_b" := by
  refine ⟨?_, ?_, rfl⟩
  · cases hfind : mapFind s.m_Cache (normalizeId a_ID) with
    | none =>
      rw [Save_of_absent env s a_ID a_Data hfind] at hsave
      cases hev : evictLoop env (saveState env s (normalizeId a_ID) a_Data) with
      | none => rw [saveWrite_none _ _ _ _ _ hev] at hsave; exact absurd hsave (by simp)
      | some r =>
        obtain ⟨s3, eff2⟩ := r
        rw [saveWrite_some _ _ _ _ _ _ _ hev] at hsave
        injection hsave with hsave
        injection hsave with h1 h2
        injection h2 with h2 h3
        rw [← h3]
        exact List.mem_append_right _ (List.mem_cons_self _ _)
    | some it =>
      cases hrf : env.removeFails it.m_Path with
      | true =>
        rw [Save_of_flushFail env s a_ID a_Data it hfind hrf] at hsave
        injection hsave with hsave
        injection hsave with h1 h2
        exact absurd h1.symm (by simp)
      | false =>
        rw [Save_of_flushOk env s a_ID a_Data it hfind hrf] at hsave
        cases hev : evictLoop env (saveState env
            { s with m_CurrentCacheSize := (s.m_CurrentCacheSize + U32 - it.m_Size) % U32,
                     m_Cache := mapErase s.m_Cache (normalizeId a_ID) }
            (normalizeId a_ID) a_Data) with
        | none => rw [saveWrite_none _ _ _ _ _ hev] at hsave; exact absurd hsave (by simp)
        | some r =>
          obtain ⟨s3, eff2⟩ := r
          rw [saveWrite_some _ _ _ _ _ _ _ hev] at hsave
          injection hsave with hsave
          injection hsave with h1 h2
          injection h2 with h2 h3
          rw [← h3]
          exact List.mem_append_right _ (List.mem_cons_self _ _)
  · intro c hc
    have hc' : c ∈ (normalizeId a_ID).data ++ (".bytes" : String).data := by
      rw [← String.data_append]
      exact hc
    rcases List.mem_append.1 hc' with hc' | hc'
    · exact normalizeId_no_slash a_ID c hc'
    · simp at hc'
      rcases hc' with rfl | rfl | rfl | rfl | rfl | rfl <;> decide

/-- C7 (amended): in the absence of file-deletion errors, `FlushAged`
removes exactly the entries whose age in hours relative to now strictly
exceeds `m_MaxCacheAge` (`agedB`) and none younger (non-aged entries stay
indexed unchanged), and it returns `true` iff at least one entry was aged
hence flushed.  As stated the claim fails when a deletion throws: the aged
entry then stays indexed — see the counterexample. -/
theorem C7_flushAged_exact (env : Env) (s : DataCache)
    (hwf : WF s) (hnr : noRemoveFails env) :
    (∀ p ∈ s.m_Cache, (agedB env s p = true →
        mapFind (FlushAged env s).2.1.m_Cache p.1 = none)
      ∧ (agedB env s p = false →
        mapFind (FlushAged env s).2.1.m_Cache p.1 = some p.2))
    ∧ ((FlushAged env s).1 = true ↔ ∃ p ∈ s.m_Cache, agedB env s p = true) := by
  have hnd := flushList_nodup env s hwf
  have hpres := flushList_present env s hwf
  constructor
  · intro p hp
    constructor
    · intro haged
      rw [FlushAged_eq]
      refine flushFold_removes env hnr _ (false, s, []) hwf hnd
        (fun id hid => (hpres id hid).1) (fun id hid => (hpres id hid).2) p.1 ?_
      exact flushList_mem env s hwf p.1 p.2 hp haged
    · intro hnotaged
      rw [FlushAged_eq]
      rw [flushFold_other env _ (false, s, []) p.1 (fun id hid => (hpres id hid).1)
        (flushList_not_mem env s hwf p.1 p.2 hp hnotaged)]
      exact mapFind_of_mem _ _ _ hwf.1 hp
  · rw [FlushAged_eq]
    rw [flushFold_true env hnr _ (false, s, []) hwf hnd
      (fun id hid => (hpres id hid).1) (fun id hid => (hpres id hid).2)]
    simp only [Bool.false_or]
    constructor
    · intro h
      cases hfl : s.m_Cache.filter (agedB env s) with
      | nil => rw [hfl] at h; simp at h
      | cons q t =>
        have hq : q ∈ s.m_Cache.filter (agedB env s) := by
          rw [hfl]
          exact List.mem_cons_self q t
        exact ⟨q, (List.mem_filter.1 hq).1, (List.mem_filter.1 hq).2⟩
    · rintro ⟨p, hp, haged⟩
      have hmem := flushList_mem env s hwf p.1 p.2 hp haged
      cases hfl : (s.m_Cache.filter (agedB env s)).map (fun p => p.2.m_Id) with
      | nil => rw [hfl] at hmem; exact absurd hmem (List.not_mem_nil _)
      | cons q t => rfl

/-- C10: if the cache directory is missing (`is_directory` false) and
`create_directories` throws, `Initialize` returns failure after having
already set the initialized flag and the configuration fields (cache
path, max size as `unsigned int`, max age), and without clearing the
previous index or running total: entries from a prior initialization
remain indexed. -/
theorem C10_init_failure_keeps_state (env : Env) (s : DataCache) (p : String)
    (msz : Nat) (mage : ℚ) (h1 : env.dirIsDir = false) (h2 : env.createFails = true) :
    Initialize env s p msz mage =
      (false,
       { s with m_bInitialized := true, m_CachePath := p,
                m_MaxCacheSize := msz % U32, m_MaxCacheAge := mage }, [])
    ∧ (Initialize env s p msz mage).2.1.m_Cache = s.m_Cache
    ∧ (Initialize env s p msz mage).2.1.m_CurrentCacheSize = s.m_CurrentCacheSize
    ∧ (Initialize env s p msz mage).1 = false
    ∧ (Initialize env s p msz mage).2.1.m_bInitialized = true := by
  have h := Initialize_fail env s p msz mage h1 h2
  refine ⟨h, ?_, ?_, ?_, ?_⟩ <;> rw [h]

/-- C8: `InsertTimer` inserts the new timer right before the first live
entry whose next-signal time is strictly greater (expired references are
skipped and never compared), so it ends up after every live entry whose
time is less than or equal to its own — ties keep prior relative order.
This preserves the queue's ascending order over live entries (an expired
reference's timer no longer exists, so only live entries carry a
next-signal time).  Consequently, inserting two timers with equal
next-signal times leaves the first one ahead of the second in the queue —
and the drain loop (`drainLoop`) dispatches from the front, so they fire
in insertion order within one wake cycle. -/
theorem C8_insert_ordered (q : List ITimer) (t t2 : ITimer) (bNew bNew2 : Bool)
    (hs : sortedByNext (liveTimers q)) (heq : t2.m_NextSignal = t.m_NextSignal) :
    (∃ l₁ l₂, q = l₁ ++ l₂ ∧ (InsertTimer q t bNew).queue = l₁ ++ t :: l₂
      ∧ (∀ x ∈ l₁, x.alive = true → x.m_NextSignal ≤ t.m_NextSignal)
      ∧ (∀ y ys, l₂ = y :: ys → y.alive = true ∧ t.m_NextSignal < y.m_NextSignal))
    ∧ sortedByNext (liveTimers (InsertTimer q t bNew).queue)
    ∧ (∃ a b c, (InsertTimer (InsertTimer q t bNew).queue t2 bNew2).queue
        = a ++ t :: b ++ t2 :: c) := by
  obtain ⟨l₁, l₂, hq, hres, hl1, hl2⟩ := insertLoop_split t q
  have hque : (InsertTimer q t bNew).queue = l₁ ++ t :: l₂ := hres
  refine ⟨⟨l₁, l₂, hq, hque, fun x hx hal => le_of_not_lt (hl1 x hx hal), hl2⟩, ?_, ?_⟩
  · rw [hque]
    rw [hq] at hs
    unfold sortedByNext liveTimers at hs ⊢
    rw [List.filter_append] at hs ⊢
    rw [List.pairwise_append] at hs
    obtain ⟨hs1, hs2, hs3⟩ := hs
    rw [List.filter_cons]
    cases hta : t.alive with
    | false =>
      simp only [hta, Bool.false_eq_true, if_false]
      rw [List.pairwise_append]
      exact ⟨hs1, hs2, hs3⟩
    | true =>
      simp only [hta, if_true]
      rw [List.pairwise_append]
      refine ⟨hs1, ?_, ?_⟩
      · rw [List.pairwise_cons]
        refine ⟨?_, hs2⟩
        intro b hb
        cases hl2' : l₂ with
        | nil => rw [hl2'] at hb; simp at hb
        | cons y ys =>
          obtain ⟨hyal, hylt⟩ := hl2 y ys hl2'
          rw [hl2'] at hb hs2
          rw [List.filter_cons] at hb hs2
          simp only [hyal, if_true] at hb hs2
          rcases List.mem_cons.1 hb with hb | hb
          · rw [hb]; exact le_of_lt hylt
          · rw [List.pairwise_cons] at hs2
            exact le_trans (le_of_lt hylt) (hs2.1 b hb)
      · intro a ha b hb
        have hamem := List.mem_filter.1 ha
        rcases List.mem_cons.1 hb with hb | hb
        · rw [hb]
          exact le_of_not_lt (hl1 a hamem.1 hamem.2)
        · exact hs3 a ha b hb
  · rw [hque]
    have hpass : ∀ x ∈ l₁ ++ [t], x.alive = true → ¬ t2.m_NextSignal < x.m_NextSignal := by
      intro x hx hal
      rcases List.mem_append.1 hx with hx | hx
      · rw [heq]; exact hl1 x hx hal
      · simp at hx
        rw [hx, heq]
        exact lt_irrefl _
    have happ := insertLoop_append t2 (l₁ ++ [t]) l₂ hpass
    obtain ⟨a', b', hq2, hres2, _, _⟩ := insertLoop_split t2 l₂
    refine ⟨l₁, a', b', ?_⟩
    have hfinal : (insertLoop t2 (l₁ ++ t :: l₂)).1 = l₁ ++ t :: (a' ++ t2 :: b') := by
      have hsplit : l₁ ++ t :: l₂ = (l₁ ++ [t]) ++ l₂ := by simp
      rw [hsplit, happ, hres2]
      simp
    show (insertLoop t2 (l₁ ++ t :: l₂)).1 = l₁ ++ t :: a' ++ t2 :: b'
    rw [hfinal]
    simp

/-- C9: when the drain loop of the timer thread dispatches a due, live,
recurring timer, it sets the timer's next signal to the previous next
signal plus `max(interval, MIN_INTERVAL_TIME)` (lines 172-176, where an
interval below the floor is raised to it) and reinserts it through the
internal insertion path — `InsertTimer` with `a_bNewTimer = false` — which
neither takes the queue lock (`locked = false`) nor wakes the thread
(`wakes = false`); indeed the whole drain never emits a wake. -/
theorem C9_recurring_reinsert (now : ℚ) (fuel : Nat) (x : ITimer) (xs : List ITimer)
    (halive : x.alive = true) (hdue : ¬ now < x.m_NextSignal)
    (hrec : x.m_bRecurring = true) :
    (drainLoop now (fuel + 1) (x :: xs)).1
      = ⟨x, x.m_bInvokeOnMain⟩ :: (drainLoop now fuel (InsertTimer xs
          { x with m_NextSignal := x.m_NextSignal + max x.m_Interval MIN_INTERVAL_TIME }
          false).queue).1
    ∧ (drainLoop now (fuel + 1) (x :: xs)).2.1
      = (drainLoop now fuel (InsertTimer xs
          { x with m_NextSignal := x.m_NextSignal + max x.m_Interval MIN_INTERVAL_TIME }
          false).queue).2.1
    ∧ (InsertTimer xs
        { x with m_NextSignal := x.m_NextSignal + max x.m_Interval MIN_INTERVAL_TIME }
        false).locked = false
    ∧ (InsertTimer xs
        { x with m_NextSignal := x.m_NextSignal + max x.m_Interval MIN_INTERVAL_TIME }
        false).wakes = false
    ∧ (∀ f q, (drainLoop now f q).2.2 = false) := by
  have hmax : (if x.m_Interval < MIN_INTERVAL_TIME then MIN_INTERVAL_TIME
      else x.m_Interval) = max x.m_Interval MIN_INTERVAL_TIME := by
    by_cases h : x.m_Interval < MIN_INTERVAL_TIME
    · rw [if_pos h]
      exact (max_eq_right (le_of_lt h)).symm
    · rw [if_neg h]
      exact (max_eq_left (le_of_not_lt h)).symm
  refine ⟨?_, ?_, rfl, ?_, fun f q => drainLoop_no_wake now f q⟩
  · simp [drainLoop, halive, hdue, hrec, hmax]
  · simp [drainLoop, halive, hdue, hrec, hmax]
  · simp [InsertTimer]

/-! ## Counterexamples -/

/-- C2 counterexample (claim as stated): `Initialize` on a directory whose
listing holds two regular files with the same stem `"a"` (sizes 5 and 3)
adds both sizes to the running total but indexes only one entry — total 8,
sum of sizes 3; and with two files of size 2^31 under distinct stems the
`unsigned int` total wraps to 0 while the mathematical sum is 2^32.  In
both reachable states the running total differs from the sum of the
indexed sizes, refuting the claimed invariant as stated. -/
theorem C2_counterexample :
    ¬ ((Initialize ⟨0, fun _ => "", fun _ => false, fun _ => false, true, false,
          [⟨"a", "pa", 0, 5, false, false⟩, ⟨"a", "pb", 0, 3, false, false⟩]⟩
        ⟨false, "", 0, 0, 0, []⟩ "d" 100 24).2.1.m_CurrentCacheSize
      = sumSizes (Initialize ⟨0, fun _ => "", fun _ => false, fun _ => false, true, false,
          [⟨"a", "pa", 0, 5, false, false⟩, ⟨"a", "pb", 0, 3, false, false⟩]⟩
        ⟨false, "", 0, 0, 0, []⟩ "d" 100 24).2.1.m_Cache)
    ∧ ¬ ((Initialize ⟨0, fun _ => "", fun _ => false, fun _ => false, true, false,
          [⟨"a", "pa", 0, 2147483648, false, false⟩,
           ⟨"b", "pb", 0, 2147483648, false, false⟩]⟩
        ⟨false, "", 0, 0, 0, []⟩ "d" 100 24).2.1.m_CurrentCacheSize
      = sumSizes (Initialize ⟨0, fun _ => "", fun _ => false, fun _ => false, true, false,
          [⟨"a", "pa", 0, 2147483648, false, false⟩,
           ⟨"b", "pb", 0, 2147483648, false, false⟩]⟩
        ⟨false, "", 0, 0, 0, []⟩ "d" 100 24).2.1.m_Cache) := by
  have hba : ¬ (['b'] < ['a']) := by decide
  have hba2 : ("b" : String) ≠ "a" := by decide
  constructor
  · norm_num [Initialize, scanFile, mapFind, mapSet, defItem, FlushAged, agedB,
      flushStep, sumSizes, U32]
  · norm_num [Initialize, scanFile, mapFind, mapSet, defItem, FlushAged, agedB,
      flushStep, sumSizes, U32, hba, hba2]

/-- C3 counterexample (claim as stated): one entry is indexed (key `"a"`,
size 3, backing file `"p"` whose deletion throws), the capacity is 4, and
`Save("b", 10 bytes)` drives the total to 13 > 4; every `FlushOldest` pass
fails to delete `"p"`, removes nothing and leaves the state unchanged, so
the eviction loop spins forever — modelled as `Save` returning `none` —
although entries exist. -/
theorem C3_counterexample :
    Save ⟨9, fun _ => "", fun _ => false, fun q => q == "p", true, false, []⟩
      ⟨true, "", 4, 24, 3, [("a", ⟨"a", "p", 0, 3, true, "z"⟩)]⟩ "b" "0123456789" = none
    ∧ (⟨true, "", 4, 24, 3, [("a", ⟨"a", "p", 0, 3, true, "z"⟩)]⟩
        : DataCache).m_Cache ≠ [] := by
  have hba : ¬ (['b'] < ['a']) := by decide
  have hba2 : ("b" : String) ≠ "a" := by decide
  have hab : ("a" : String) ≠ "b" := by decide
  have hnb : normalizeId "b" = "b" := by simp [normalizeId]
  have hna : normalizeId "a" = "a" := by simp [normalizeId]
  have hlen : ("0123456789" : String).length = 10 := by decide
  constructor
  · norm_num [Save, mapFind, saveWrite, saveState, mapSet, evictLoop,
      evictLoopFuel, FlushOldest, oldestItem, oldestFrom, Flush, mapErase, U32,
      hba, hba2, hab, hnb, hna, hlen]
  · simp

/-- C4 counterexample (claim as stated): writing the backing file
`"p/a.bytes"` fails (the recorded write effect carries `ok = false`), yet
`Save` returns success — a failed file write is not reported to the
caller. -/
theorem C4_counterexample :
    Save ⟨5, fun _ => "", fun q => q == "p/a.bytes", fun _ => false, true, false, []⟩
      ⟨true, "p/", 100, 24, 0, []⟩ "a" "x"
      = some (true,
        ⟨true, "p/", 100, 24, 1, [("a", ⟨"a", "p/a.bytes", 5, 1, true, "x"⟩)]⟩,
        [FileOp.write "p/a.bytes" "x" false])
    ∧ (fun q => q == "p/a.bytes") "p/a.bytes" = true := ⟨rfl, rfl⟩

/-- C6 counterexample (claim as stated): with cache path `"/tmp/c"` (no
trailing separator), `Save("a/b", "hello")` writes `"/tmp/ca_b.bytes"` — a
sibling of the cache directory, not the file `a_b.bytes` inside it. -/
theorem C6_counterexample :
    Save ⟨5, fun _ => "", fun _ => false, fun _ => false, true, false, []⟩
      ⟨true, "/tmp/c", 100, 24, 0, []⟩ "a/b" "hello"
      = some (true,
        ⟨true, "/tmp/c", 100, 24, 5,
          [("a_b", ⟨"a_b", "/tmp/ca_b.bytes", 5, 5, true, "hello"⟩)]⟩,
        [FileOp.write "/tmp/ca_b.bytes" "hello" true])
    ∧ "/tmp/ca_b.bytes" ≠ "/tmp/c" ++ "/" ++ "a_b.bytes" := by
  exact ⟨rfl, by decide⟩

/-- C7 counterexample (claim as stated): the single entry (key `"a"`, time
0, path `"p"`) is aged — with now = 7200 s and `m_MaxCacheAge` = 1 h its
age is 2 h — but deleting `"p"` throws, so `FlushAged` leaves it indexed
and returns `false`: the aged entry is not removed, refuting "removes
exactly the entries whose age exceeds maxCacheAge". -/
theorem C7_counterexample :
    FlushAged ⟨7200, fun _ => "", fun _ => false, fun q => q == "p", true, false, []⟩
      ⟨true, "", 100, 1, 1, [("a", ⟨"a", "p", 0, 1, false, ""⟩)]⟩
      = (false, ⟨true, "", 100, 1, 1, [("a", ⟨"a", "p", 0, 1, false, ""⟩)]⟩,
         [FileOp.remove "p" false])
    ∧ agedB ⟨7200, fun _ => "", fun _ => false, fun q => q == "p", true, false, []⟩
        ⟨true, "", 100, 1, 1, [("a", ⟨"a", "p", 0, 1, false, ""⟩)]⟩
        ("a", ⟨"a", "p", 0, 1, false, ""⟩) = true := by
  have hna : normalizeId "a" = "a" := by simp [normalizeId]
  constructor
  · norm_num [FlushAged, agedB, flushStep, Flush, mapFind, hna]
  · norm_num [agedB]

/-! ## Witnesses: the claim theorems applied at concrete inputs -/

/-- C1 witness: `Save` of `"x"` under id `"a"` into an empty, well-formed
cache succeeds, and the three persistence conclusions hold of the resulting
state. -/
theorem C1_saved_data_persists_witness :
    holdsData ⟨true, "p/", 100, 24, 1, [("a", ⟨"a", "p/a.bytes", 5, 1, true, "x"⟩)]⟩
      (normalizeId "a") "x"
    ∧ (∀ env' it,
        (Find env' ⟨true, "p/", 100, 24, 1, [("a", ⟨"a", "p/a.bytes", 5, 1, true, "x"⟩)]⟩
          "a").1 = some it → it.m_Data = "x")
    ∧ (∀ l s'',
        runSteps l ⟨true, "p/", 100, 24, 1, [("a", ⟨"a", "p/a.bytes", 5, 1, true, "x"⟩)]⟩
          = some s'' →
        holdsData s'' (normalizeId "a") "x"
        ∨ ∃ p ∈ l, opFlushesKey (normalizeId "a") p.2) :=
  C1_saved_data_persists ⟨5, fun _ => "", fun _ => false, fun _ => false, true, false, []⟩
    ⟨true, "p/", 100, 24, 0, []⟩ "a" "x"
    ⟨true, "p/", 100, 24, 1, [("a", ⟨"a", "p/a.bytes", 5, 1, true, "x"⟩)]⟩
    [FileOp.write "p/a.bytes" "x" true]
    ⟨List.Pairwise.nil, fun q hq => absurd hq (List.not_mem_nil q)⟩ rfl rfl

/-- C2 witness: one `doSave` step out of an empty, well-formed cache under
an empty listing lands in a state that is again well-formed and satisfies
the modular size invariant. -/
theorem C2_running_total_invariant_witness :
    WF ⟨true, "p/", 100, 24, 1, [("a", ⟨"a", "p/a.bytes", 5, 1, true, "x"⟩)]⟩
    ∧ SizeInv ⟨true, "p/", 100, 24, 1, [("a", ⟨"a", "p/a.bytes", 5, 1, true, "x"⟩)]⟩ :=
  C2_running_total_invariant ⟨5, fun _ => "", fun _ => false, fun _ => false, true, false, []⟩
    (Op.doSave "a" "x") ⟨true, "p/", 100, 24, 0, []⟩
    ⟨true, "p/", 100, 24, 1, [("a", ⟨"a", "p/a.bytes", 5, 1, true, "x"⟩)]⟩
    ⟨List.Pairwise.nil, fun q hq => absurd hq (List.not_mem_nil q)⟩ rfl
    ⟨List.nodup_nil, fun f hf => absurd hf (List.not_mem_nil f)⟩ rfl

/-- C3 witness: from an empty, well-formed cache, any successful `Save`
ends within capacity, and with no deletion errors `Save` does not
diverge. -/
theorem C3_save_total_bounded_witness :
    (∀ s' eff,
      Save ⟨5, fun _ => "", fun _ => false, fun _ => false, true, false, []⟩
        ⟨true, "p/", 100, 24, 0, []⟩ "a" "x" = some (true, s', eff) →
      s'.m_CurrentCacheSize ≤ s'.m_MaxCacheSize)
    ∧ (noRemoveFails ⟨5, fun _ => "", fun _ => false, fun _ => false, true, false, []⟩ →
      Save ⟨5, fun _ => "", fun _ => false, fun _ => false, true, false, []⟩
        ⟨true, "p/", 100, 24, 0, []⟩ "a" "x" ≠ none) :=
  C3_save_total_bounded ⟨5, fun _ => "", fun _ => false, fun _ => false, true, false, []⟩
    ⟨true, "p/", 100, 24, 0, []⟩ "a" "x"
    ⟨List.Pairwise.nil, fun q hq => absurd hq (List.not_mem_nil q)⟩ rfl

/-- C6 witness: the successful `Save("a/b", "hello")` under cache path
`"/tmp/c"` records the write of `m_CachePath ++ normalizedId ++ ".bytes"`,
the file name is separator-free, and `normalizeId "a/b" = "a_b"`. -/
theorem C6_save_backing_file_witness :
    FileOp.write ("/tmp/c" ++ normalizeId "a/b" ++ ".bytes") "hello"
      (!(fun _ => false : String → Bool) ("/tmp/c" ++ normalizeId "a/b" ++ ".bytes"))
      ∈ [FileOp.write "/tmp/ca_b.bytes" "hello" true]
    ∧ (∀ c ∈ (normalizeId "a/b" ++ ".bytes").data, c ≠ '/')
    ∧ normalizeId "a/b" = "a_b" :=
  C6_save_backing_file ⟨5, fun _ => "", fun _ => false, fun _ => false, true, false, []⟩
    ⟨true, "/tmp/c", 100, 24, 0, []⟩ "a/b" "hello"
    ⟨true, "/tmp/c", 100, 24, 5,
      [("a_b", ⟨"a_b", "/tmp/ca_b.bytes", 5, 5, true, "hello"⟩)]⟩
    [FileOp.write "/tmp/ca_b.bytes" "hello" true] rfl

/-- C7 witness: on a well-formed singleton cache under an environment with
no deletion errors, `FlushAged` removes exactly the aged entries and its
result is `true` iff some entry is aged. -/
theorem C7_flushAged_exact_witness :
    (∀ p ∈ (⟨true, "", 100, 1, 1, [("a", ⟨"a", "pa", 0, 1, false, ""⟩)]⟩
        : DataCache).m_Cache,
      (agedB ⟨7200, fun _ => "", fun _ => false, fun _ => false, true, false, []⟩
          ⟨true, "", 100, 1, 1, [("a", ⟨"a", "pa", 0, 1, false, ""⟩)]⟩ p = true →
        mapFind (FlushAged ⟨7200, fun _ => "", fun _ => false, fun _ => false, true, false, []⟩
          ⟨true, "", 100, 1, 1, [("a", ⟨"a", "pa", 0, 1, false, ""⟩)]⟩).2.1.m_Cache
          p.1 = none)
      ∧ (agedB ⟨7200, fun _ => "", fun _ => false, fun _ => false, true, false, []⟩
          ⟨true, "", 100, 1, 1, [("a", ⟨"a", "pa", 0, 1, false, ""⟩)]⟩ p = false →
        mapFind (FlushAged ⟨7200, fun _ => "", fun _ => false, fun _ => false, true, false, []⟩
          ⟨true, "", 100, 1, 1, [("a", ⟨"a", "pa", 0, 1, false, ""⟩)]⟩).2.1.m_Cache
          p.1 = some p.2))
    ∧ ((FlushAged ⟨7200, fun _ => "", fun _ => false, fun _ => false, true, false, []⟩
        ⟨true, "", 100, 1, 1, [("a", ⟨"a", "pa", 0, 1, false, ""⟩)]⟩).1 = true ↔
      ∃ p ∈ (⟨true, "", 100, 1, 1, [("a", ⟨"a", "pa", 0, 1, false, ""⟩)]⟩
          : DataCache).m_Cache,
        agedB ⟨7200, fun _ => "", fun _ => false, fun _ => false, true, false, []⟩
          ⟨true, "", 100, 1, 1, [("a", ⟨"a", "pa", 0, 1, false, ""⟩)]⟩ p = true) :=
  C7_flushAged_exact ⟨7200, fun _ => "", fun _ => false, fun _ => false, true, false, []⟩
    ⟨true, "", 100, 1, 1, [("a", ⟨"a", "pa", 0, 1, false, ""⟩)]⟩
    ⟨List.pairwise_singleton _ _, fun p hp => by
      rw [List.mem_singleton] at hp
      subst hp
      exact ⟨rfl, by decide, by decide⟩⟩
    (fun p => rfl)

/-- C8 witness: inserting timer `t` (next signal 10) into the empty queue
and then `t2` with the same next-signal time places `t2` after `t`, with
the queue's live entries sorted. -/
theorem C8_insert_ordered_witness :
    (∃ l₁ l₂, ([] : List ITimer) = l₁ ++ l₂
      ∧ (InsertTimer [] ⟨10, 1, false, false, true⟩ true).queue
        = l₁ ++ (⟨10, 1, false, false, true⟩ : ITimer) :: l₂
      ∧ (∀ x ∈ l₁, x.alive = true →
          x.m_NextSignal ≤ (⟨10, 1, false, false, true⟩ : ITimer).m_NextSignal)
      ∧ (∀ y ys, l₂ = y :: ys → y.alive = true ∧
          (⟨10, 1, false, false, true⟩ : ITimer).m_NextSignal < y.m_NextSignal))
    ∧ sortedByNext (liveTimers (InsertTimer [] ⟨10, 1, false, false, true⟩ true).queue)
    ∧ (∃ a b c,
        (InsertTimer (InsertTimer [] ⟨10, 1, false, false, true⟩ true).queue
          ⟨10, 2, true, true, true⟩ false).queue
        = a ++ (⟨10, 1, false, false, true⟩ : ITimer) :: b
            ++ (⟨10, 2, true, true, true⟩ : ITimer) :: c) :=
  C8_insert_ordered [] ⟨10, 1, false, false, true⟩ ⟨10, 2, true, true, true⟩ true false
    List.Pairwise.nil rfl

/-- C9 witness: a due, live, recurring timer with next signal 0 and
interval 0 (raised to the floor) is dispatched and reinserted through the
lock-free, wake-free path. -/
theorem C9_recurring_reinsert_witness :
    (drainLoop 0 (0 + 1) [⟨0, 0, true, false, true⟩]).1
      = (⟨⟨0, 0, true, false, true⟩, false⟩ : Invocation) :: (drainLoop 0 0 (InsertTimer []
          ⟨0 + max 0 MIN_INTERVAL_TIME, 0, true, false, true⟩ false).queue).1
    ∧ (drainLoop 0 (0 + 1) [⟨0, 0, true, false, true⟩]).2.1
      = (drainLoop 0 0 (InsertTimer []
          ⟨0 + max 0 MIN_INTERVAL_TIME, 0, true, false, true⟩ false).queue).2.1
    ∧ (InsertTimer [] ⟨0 + max 0 MIN_INTERVAL_TIME, 0, true, false, true⟩
        false).locked = false
    ∧ (InsertTimer [] ⟨0 + max 0 MIN_INTERVAL_TIME, 0, true, false, true⟩
        false).wakes = false
    ∧ (∀ f q, (drainLoop 0 f q).2.2 = false) :=
  C9_recurring_reinsert 0 0 ⟨0, 0, true, false, true⟩ [] rfl (lt_irrefl 0) rfl

/-- C10 witness: with the directory missing and creation throwing,
`Initialize` on a cache holding one prior entry fails, rewrites only the
flag and configuration fields, and keeps the prior index and total. -/
theorem C10_init_failure_keeps_state_witness :
    Initialize ⟨0, fun _ => "", fun _ => false, fun _ => false, false, true, []⟩
        ⟨true, "old", 50, 12, 9, [("k", ⟨"k", "kp", 1, 9, false, ""⟩)]⟩ "new" 7 3
      = (false, ⟨true, "new", 7 % U32, 3, 9, [("k", ⟨"k", "kp", 1, 9, false, ""⟩)]⟩, [])
    ∧ (Initialize ⟨0, fun _ => "", fun _ => false, fun _ => false, false, true, []⟩
        ⟨true, "old", 50, 12, 9, [("k", ⟨"k", "kp", 1, 9, false, ""⟩)]⟩
        "new" 7 3).2.1.m_Cache = [("k", ⟨"k", "kp", 1, 9, false, ""⟩)]
    ∧ (Initialize ⟨0, fun _ => "", fun _ => false, fun _ => false, false, true, []⟩
        ⟨true, "old", 50, 12, 9, [("k", ⟨"k", "kp", 1, 9, false, ""⟩)]⟩
        "new" 7 3).2.1.m_CurrentCacheSize = 9
    ∧ (Initialize ⟨0, fun _ => "", fun _ => false, fun _ => false, false, true, []⟩
        ⟨true, "old", 50, 12, 9, [("k", ⟨"k", "kp", 1, 9, false, ""⟩)]⟩
        "new" 7 3).1 = false
    ∧ (Initialize ⟨0, fun _ => "", fun _ => false, fun _ => false, false, true, []⟩
        ⟨true, "old", 50, 12, 9, [("k", ⟨"k", "kp", 1, 9, false, ""⟩)]⟩
        "new" 7 3).2.1.m_bInitialized = true :=
  C10_init_failure_keeps_state ⟨0, fun _ => "", fun _ => false, fun _ => false, false, true, []⟩
    ⟨true, "old", 50, 12, 9, [("k", ⟨"k", "kp", 1, 9, false, ""⟩)]⟩ "new" 7 3 rfl rfl
